import Mathlib

/-!
Verification of the Cin7 → Smartsheet upload pipeline
(`cin7_smartsheet_gui.py`, class `Cin7SmartsheetUploaderFixed`).

Shallow embedding conventions:
* Cell values are modeled as `String` (pandas cells are read as strings;
  missing values / NaN are modeled as `""`, matching the `fillna('')` and
  `pd.isna` handling in the source).
* Python `float` values are modeled as exact decimal rationals
  `DecVal` (an integer numerator over a power of ten).  Parsing follows
  Python's `float()` literal grammar (sign, digit parts with single
  underscores, optional fraction and exponent); values at or beyond the
  IEEE-double overflow threshold are modeled as parse failures (Python
  raises `OverflowError` there), and values that underflow to zero are
  parsed as zero.  `inf`/`nan` names are modeled as parse failures.
* Network calls, sleeps and cancellation-flag reads are recorded in an
  explicit event trace; remote success/failure and the shared
  cancellation flag are supplied as oracles indexed by call counters.
-/

namespace Cin7

/-- Python whitespace characters relevant to `str.strip()` (ASCII model). -/
def isSpaceChar (c : Char) : Bool :=
  c == ' ' || c == '\t' || c == '\n' || c == '\r' || c == '\x0b' || c == '\x0c'

/-- `str.strip()` on a character list: drop whitespace on both ends. -/
def trimL (l : List Char) : List Char :=
  ((l.dropWhile isSpaceChar).reverse.dropWhile isSpaceChar).reverse

/-- Python `str.strip()`. -/
def pyStrip (s : String) : String := String.mk (trimL s.data)

/-- Python `str.lower()` (ASCII model). -/
def pyLower (s : String) : String := String.mk (s.data.map Char.toLower)

/-- Python `str.rstrip(c)`: drop every trailing occurrence of `c`. -/
def rstripL (l : List Char) (c : Char) : List Char :=
  (l.reverse.dropWhile (fun x => x == c)).reverse

def isPrefixL : List Char → List Char → Bool
  | [], _ => true
  | _ :: _, [] => false
  | a :: as, b :: bs => a == b && isPrefixL as bs

def isSubstrL : List Char → List Char → Bool
  | p, [] => p.isEmpty
  | p, b :: bs => isPrefixL p (b :: bs) || isSubstrL p bs

/-- Python `pattern in s` (substring containment). -/
def strContains (s pat : String) : Bool := isSubstrL pat.data s.data

/-! ## Decimal values: exact model of the Python floats used by the tool -/

/-- An exact decimal value `num / 10 ^ e`.  Models the Python `float`s
produced by `float(...)` in `clean_numeric_value`: the tool only ever
parses decimal literals, so every such float denotes a decimal rational
(up to IEEE rounding, which this model treats as exact). -/
structure DecVal where
  num : Int
  e : Nat
deriving DecidableEq, Repr

def digitChar : Nat → Char
  | 0 => '0' | 1 => '1' | 2 => '2' | 3 => '3' | 4 => '4'
  | 5 => '5' | 6 => '6' | 7 => '7' | 8 => '8' | 9 => '9'
  | _ => '*'

def digitVal (c : Char) : Nat := c.toNat - 48

/-- Value of a digit string, most significant first. -/
def digsVal (l : List Char) : Nat := l.foldl (fun a c => a * 10 + digitVal c) 0

def natDigitsAux : Nat → Nat → List Char
  | 0, _ => []
  | fuel + 1, n =>
    if n < 10 then [digitChar n]
    else natDigitsAux fuel (n / 10) ++ [digitChar (n % 10)]

/-- Decimal digit string of a natural number (Python `str(int)` for `n ≥ 0`). -/
def natDigits (n : Nat) : List Char := natDigitsAux (n + 1) n

/-- Python `str(int(q))` for an integer `q`. -/
def intStr (q : Int) : String :=
  String.mk ((if q < 0 then ['-'] else []) ++ natDigits q.natAbs)

/-- A Python `digitpart`: digits with single embedded underscores, after the
leading digit checked by `isDigitpart`. -/
def dpAux : List Char → Bool
  | [] => true
  | c :: cs =>
    if c == '_' then
      match cs with
      | [] => false
      | d :: ds => d.isDigit && dpAux ds
    else c.isDigit && dpAux cs

def isDigitpart : List Char → Bool
  | [] => false
  | c :: cs => c.isDigit && dpAux cs

def stripUnders (l : List Char) : List Char := l.filter (fun c => c != '_')

/-- Split at the first character satisfying `p`: `(before, some after)`,
or `(l, none)` when no character matches. -/
def splitFirst (p : Char → Bool) : List Char → List Char × Option (List Char)
  | [] => ([], none)
  | c :: cs =>
    if p c then ([], some cs)
    else
      let r := splitFirst p cs
      (c :: r.1, r.2)

/-- IEEE-double overflow threshold (the decimal literal is `2 ^ 1024`; the
true boundary is within one ulp of this, irrelevant for any value this
tool meets). -/
def floatCap : Nat := 179769313486231590772930519078902473361797697894230657273430081157732675805500963132708477322407536021120113879871393357658789768814416622492847430639474124377767893424865485276302219601246094119453082952085005768838150682342462881473913110540827237163350510684586298239947245938479716304835356329624224137216

/-- Underflow scale (the decimal literal is `2 ^ 1075`): positive values
below `2 ^ (-1075)` read back as `0.0` in Python. -/
def underflowScale : Nat := 404804506614621236704990693437834614099113299528284236713802716054860679135990693783920767402874248990374155728633623822779617474771586953734026799881477019843034848553132722728933815484186432682479535356945490137124014966849385397236206711298319112681620113024717539104666829230461005064372655017292012526615415482186989568

/-- Strip one leading sign character: `(isNegative, rest)`. -/
def splitSign (l : List Char) : Bool × List Char :=
  if l.head? = some '-' then (true, l.tail)
  else if l.head? = some '+' then (false, l.tail)
  else (false, l)

/-- Python `float(s)` on exact decimals: `none` where Python raises
`ValueError` or `OverflowError`; `inf`/`nan` names modeled as `none`
(the tool never feeds them to `float`, see `clean_numeric_value`).
Deviation: the real `float` rounds to the nearest 53-bit double while
this model keeps the exact decimal, so inputs with more than about 17
significant digits diverge.  Every theorem stated over this model either
fixes small concrete inputs or restricts magnitudes (at most two decimal
digits, value below `10 ^ 13 < 2 ^ 44`), where the nearest double lies
within `2 ^ (-9) < 0.005` of the exact value — close enough that the
integrality test, the `1e15` bound and the printed digits coincide with
the exact model. -/
def pyFloat? (s : String) : Option DecVal :=
  let s1 := splitSign (trimL s.data)
  let sgnNeg : Bool := s1.1
  let l : List Char := s1.2
  match splitFirst (fun c => c == 'e' || c == 'E') l with
  | (mant, expPart) =>
    let expOk : Option Int :=
      match expPart with
      | none => some 0
      | some ep =>
        let es := splitSign ep
        let eneg : Bool := es.1
        let ed : List Char := es.2
        if isDigitpart ed then
          some (if eneg then -(digsVal (stripUnders ed) : Int) else (digsVal (stripUnders ed) : Int))
        else none
    match expOk with
    | none => none
    | some ex =>
      match splitFirst (fun c => c == '.') mant with
      | (ip, fpOpt) =>
        let fp := fpOpt.getD []
        let ok : Bool :=
          match fpOpt with
          | none => isDigitpart ip
          | some f =>
            (ip.isEmpty || isDigitpart ip) && (f.isEmpty || isDigitpart f) &&
              !(ip.isEmpty && f.isEmpty)
        if ok then
          let ipd := stripUnders ip
          let fpd := stripUnders fp
          let m : Nat := digsVal (ipd ++ fpd)
          let e0 : Nat := fpd.length
          let num0 : Nat := if 0 ≤ ex then m * 10 ^ ex.toNat else m
          let e1 : Nat := if 0 ≤ ex then e0 else e0 + (-ex).toNat
          if floatCap * 10 ^ e1 ≤ num0 then none
          else if num0 * underflowScale ≤ 10 ^ e1 then some ⟨0, 0⟩
          else some ⟨(if sgnNeg then -(num0 : Int) else (num0 : Int)), e1⟩
        else none

/-- `float.is_integer()` on the exact model. -/
def decIsInt (d : DecVal) : Bool := d.num % ((10 ^ d.e : Nat) : Int) == 0

/-- `abs(v) < bound` on the exact model. -/
def decAbsLt (d : DecVal) (bound : Nat) : Bool := d.num.natAbs < bound * 10 ^ d.e

/-- Exact value of `f"{v:.2f}".rstrip('0').rstrip('.')`: round to two
decimals (half-even), render, trim trailing zeros and a trailing point.
Deviation: Python formats the stored double, not the decimal — e.g.
`f"{1.015:.2f}"` is `"1.01"` because the double is just below `1.015`.
The theorems below only apply this to values with at most two decimal
digits and magnitude below `10 ^ 13`, where no actual rounding happens
and the double's `%.2f` digits equal the exact ones (the double is within
`2 ^ (-9) < 0.005` of the value). -/
def fmt2 (d : DecVal) : String :=
  let p : Nat := 10 ^ d.e
  let m : Nat := d.num.natAbs * 100
  let n : Nat := m / p
  let r : Nat := m % p
  let rounded : Nat :=
    if 2 * r < p then n else if p < 2 * r then n + 1 else if n % 2 == 0 then n else n + 1
  let f := rounded % 100
  let raw := (if d.num < 0 then ['-'] else []) ++ natDigits (rounded / 100) ++
    '.' :: [digitChar (f / 10), digitChar (f % 10)]
  String.mk (rstripL (rstripL raw '0') '.')

/-- The integral/decimal rendering shared by `clean_numeric_value`'s two
success branches: whole numbers below `1e15` as plain integer strings,
otherwise two decimals with trailing zeros trimmed. -/
def fmtNumeric (d : DecVal) : String :=
  if decIsInt d && decAbsLt d (10 ^ 15) then intStr (Int.ediv d.num ((10 ^ d.e : Nat) : Int))
  else fmt2 d

/-! ## `clean_numeric_value` (the NumericNormalizer) -/

/-- The `replace` chain of `clean_numeric_value`: drop `,`, drop spaces,
drop `$`, turn `(` into `-`, drop `)`. -/
def scrub (l : List Char) : List Char :=
  ((((l.filter (fun c => c != ',')).filter (fun c => c != ' ')).filter
      (fun c => c != '$')).map (fun c => if c == '(' then '-' else c)).filter
    (fun c => c != ')')

/-- The character scrubbing at the top of `clean_numeric_value`:
`strip()` then the `replace` chain. -/
def cleanChars (s : String) : List Char := scrub (trimL s.data)

/-- The null-like tokens recognized by `clean_numeric_value`. -/
def nullTokens : List String := ["nan", "null", "none", "n/a", "#n/a"]

/-- `re.findall(r'-?\d+\.?\d*', s)[0]`: the number matched at one position
(digits, optional point, more digits). -/
def takeNum (l : List Char) : List Char :=
  let ds := l.takeWhile Char.isDigit
  match l.drop ds.length with
  | '.' :: r2 => ds ++ '.' :: r2.takeWhile Char.isDigit
  | _ => ds

def matchNumAt (l : List Char) : Option (List Char) :=
  match l with
  | '-' :: c :: cs => if c.isDigit then some ('-' :: takeNum (c :: cs)) else none
  | c :: _ => if c.isDigit then some (takeNum l) else none
  | [] => none

/-- Leftmost match of `-?\d+\.?\d*` in `l`, if any. -/
def firstNum : List Char → Option (List Char)
  | [] => none
  | c :: cs =>
    match matchNumAt (c :: cs) with
    | some m => some m
    | none => firstNum cs

/-- The final `return str_value if str_value and str_value not in ['0.0', '0.00'] else ''`. -/
def fallbackStr (s : String) : String :=
  if s != "" && s != "0.0" && s != "0.00" then s else ""

/-- `Cin7SmartsheetUploaderFixed.clean_numeric_value`.  Raw cells are
modeled as strings; `pd.isna(value)` / `value is None` are modeled by the
empty string (the pipeline applies `fillna('')` before cleaning). -/
def clean_numeric_value (value : String) : String :=
  if value == "" then ""
  else
    let cl := cleanChars value
    let s := String.mk cl
    if nullTokens.contains (pyLower s) then ""
    else
      match pyFloat? s with
      | some d => fmtNumeric d
      | none =>
        match firstNum cl with
        | some numChars =>
          match pyFloat? (String.mk numChars) with
          | some d => fmtNumeric d
          | none => fallbackStr s
        | none => fallbackStr s

/-! ## Tables and the Cin7 column mapper -/

/-- Column headers of an in-memory table: flat (single header row) or the
two-level `pd.MultiIndex` produced by reading with `header=[0, 1]`. -/
inductive Cols where
  | flat (names : List String)
  | multi (pairs : List (String × String))
deriving DecidableEq, Repr

/-- A pandas DataFrame as the pipeline sees it: headers plus row-major
cells.  Cells are strings; missing values are `""` (`fillna('')`). -/
structure Table where
  cols : Cols
  rows : List (List String)
deriving DecidableEq, Repr

/-- Flat header list (the mapper and filter only run after flattening). -/
def Table.headers (t : Table) : List String :=
  match t.cols with
  | .flat ns => ns
  | .multi ps => ps.map (fun p => p.1)

/-- `self.cin7_column_mapping`: target schema fields with their search
patterns, in order. -/
def cin7_column_mapping : List (String × List String) :=
  [("ProductCode", ["productcode", "product_code", "product code"]),
   ("Product", ["product", "description", "product description"]),
   ("Branch", ["branch", "location", "warehouse"]),
   ("SOH", ["soh", "4 - soh", "stock on hand", "soh_stock qty"]),
   ("Incoming NOT paid", ["incoming", "5 -", "open po", "incoming not paid", "incoming_not_paid_stock qty"]),
   ("Open Sales", ["open sales", "6 -", "allocated", "open_sales_stock qty"]),
   ("Grand Total", ["grand total", "7 -", "total", "grand_total_stock qty"])]

/-- `self.numeric_columns`. -/
def numeric_columns : List String :=
  ["SOH", "Incoming NOT paid", "Open Sales", "Grand Total", "Available"]

/-- The numeric-typed schema fields that default to `''` when unmatched
(the literal list at line 1469 of the source). -/
def numericDefaultFields : List String :=
  ["SOH", "Incoming NOT paid", "Open Sales", "Grand Total"]

/-- First source column whose lowercased header contains one of the search
patterns as a substring (`any(pattern in df_col_lower ...)`). -/
def findSourceIdx (headers : List String) (patterns : List String) : Option Nat :=
  headers.findIdx? (fun h => patterns.any (fun p => strContains (pyLower h) p))

/-- Column `j` of the table, padding short rows with `""`. -/
def getCol (t : Table) (j : Nat) : List String := t.rows.map (fun r => r.getD j "")

/-- The mapped data frame built by `apply_cin7_column_mapping_fixed`.  A
cell is `none` for pandas `NaN`: the source assigns scalar defaults to a
`mapped_df` that starts with an empty index, and the first matched
column's Series assignment reindexes the frame (`_ensure_valid_index`,
`fill_value=NaN`), clobbering every column assigned before it. -/
structure MTable where
  cols : List String
  rows : List (List (Option String))
deriving DecidableEq, Repr

/-- Position (in schema order) of the first field whose pattern search
matches a source column — the Series assignment that establishes the
mapped frame's index.  `none`: no field matches and the frame keeps its
empty index (zero rows). -/
def firstMatchPos (t : Table) : Option Nat :=
  (cin7_column_mapping.map (fun tc => findSourceIdx t.headers tc.2)).findIdx? Option.isSome

/-- One mapped column of `apply_cin7_column_mapping_fixed`, with the
pandas empty-index semantics.  A matched field takes the source column
(cleaned for numeric targets, `str.strip`ped otherwise).  An unmatched
field is assigned its schema default (`''` numeric / `'N/A'` text) as a
scalar: if an earlier field (position `pos` past `firstMatch`) already
matched, the index is established and the scalar broadcasts; if the first
match comes later (`pos < firstMatch`), the default sits on the empty
index and is `NaN`-clobbered when that match reindexes the frame; if no
field ever matches, the column keeps zero rows. -/
def mapOneColumn (t : Table) (firstMatch : Option Nat) (pos : Nat)
    (target : String) (patterns : List String) :
    List (Option String) × Option Nat :=
  match findSourceIdx t.headers patterns with
  | some j =>
    if numeric_columns.contains target then
      ((getCol t j).map (fun v => some (clean_numeric_value v)), some j)
    else
      ((getCol t j).map (fun v => some (pyStrip v)), some j)
  | none =>
    match firstMatch with
    | none => ([], none)
    | some k =>
      if pos < k then (List.replicate t.rows.length none, none)
      else
        (List.replicate t.rows.length
          (some (if numericDefaultFields.contains target then "" else "N/A")), none)

/-- The derived `Available` entry for one mapped row: re-clean `SOH` and
`Open Sales`, subtract as floats (empty string counts as 0), format with
the integral/two-decimal rule; any conversion failure yields `''`. -/
def availableEntry (sohRaw openSalesRaw : String) : String :=
  let sohVal := clean_numeric_value sohRaw
  let osVal := clean_numeric_value openSalesRaw
  let sohNum : Option DecVal := if sohVal == "" then some ⟨0, 0⟩ else pyFloat? sohVal
  let osNum : Option DecVal := if osVal == "" then some ⟨0, 0⟩ else pyFloat? osVal
  match sohNum, osNum with
  | some a, some b =>
    let d : DecVal := ⟨a.num * ((10 ^ b.e : Nat) : Int) - b.num * ((10 ^ a.e : Nat) : Int), a.e + b.e⟩
    if decIsInt d then intStr (Int.ediv d.num ((10 ^ d.e : Nat) : Int)) else fmt2 d
  | _, _ => ""

/-- The mapped columns (in schema order) with their mapping results
(`some j` = bound to source column `j`, `none` = no match, the default
used and a warning logged). -/
def mappedColumns (t : Table) : List (String × (List (Option String) × Option Nat)) :=
  cin7_column_mapping.mapIdx (fun i tc => (tc.1, mapOneColumn t (firstMatchPos t) i tc.1 tc.2))

/-- `apply_cin7_column_mapping_fixed`: build the mapped frame.  All seven
schema fields are always assigned, then the calculated `Available`; the
function is total (unmatched fields never raise).  Under the pandas
empty-index semantics the row count is `0` when no field matches, and the
`Available` loop re-cleans cells with `clean_numeric_value`, whose
`pd.isna` branch turns a `NaN` cell into `''` (modeled via `getD ""`). -/
def apply_cin7_column_mapping_fixed (t : Table) : MTable :=
  let cols := mappedColumns t
  let names := cols.map (fun c => c.1) ++ ["Available"]
  let nrows := if (firstMatchPos t).isSome then t.rows.length else 0
  let sohCol := (cols.map (fun c => c.2.1)).getD 3 []
  let osCol := (cols.map (fun c => c.2.1)).getD 5 []
  let availCol := List.zipWith
    (fun a b => some (availableEntry (a.getD "") (b.getD ""))) sohCol osCol
  let allCols := cols.map (fun c => c.2.1) ++ [availCol]
  { cols := names,
    rows := (List.range nrows).map (fun i => allCols.map (fun c => c.getD i none)) }

/-! ## `process_cin7_excel_data_fixed` -/

/-- `str.strip('_')`: drop leading and trailing underscores. -/
def stripUnderscoreEnds (s : String) : String :=
  String.mk (((s.data.dropWhile (fun c => c == '_')).reverse.dropWhile (fun c => c == '_')).reverse)

/-- Flatten one two-level header (`if col[0] and col[1] and
str(col[0]).strip() != str(col[1]).strip()` join with `_`, else take the
lower level when present). -/
def flattenPair (p : String × String) : String :=
  if p.1 != "" && p.2 != "" && pyStrip p.1 != pyStrip p.2 then
    stripUnderscoreEnds (p.1 ++ "_" ++ p.2)
  else pyStrip (if p.2 != "" then p.2 else p.1)

/-- The multi-level-header flattening step (in-place column rename in the
source; identity on already-flat tables). -/
def flattenCols (t : Table) : Table :=
  match t.cols with
  | .flat _ => t
  | .multi ps => { cols := .flat (ps.map flattenPair), rows := t.rows }

/-- Does the lowercased header contain one of the indicator substrings? -/
def headerHasAny (indicators : List String) (h : String) : Bool :=
  indicators.any (fun ind => strContains (pyLower h) ind)

/-- Apply `clean_numeric_value` to every cell of the columns selected by
`pred` (a `working_df[col] = working_df[col].apply(...)` loop). -/
def cleanColsBy (pred : String → Bool) (t : Table) : Table :=
  { t with
    rows := t.rows.map (fun r =>
      r.mapIdx (fun i v => if pred (t.headers.getD i "") then clean_numeric_value v else v)) }

/-- `astype(str).apply(lambda x: x.strip())` on every column. -/
def stripAllCols (t : Table) : Table :=
  { t with rows := t.rows.map (fun r => r.map pyStrip) }

/-- The auto-detect indicator list used after mapping (line 1385). -/
def autoIndicatorsMapped : List String :=
  ["stock", "qty", "quantity", "total", "value", "incoming"]

/-- The auto-detect indicator list used without mapping (line 1398). -/
def autoIndicatorsUnmapped : List String :=
  ["stock", "qty", "quantity", "total", "value", "incoming", "sales", "soh"]

/-- `working_df[col] = working_df[col].apply(clean_numeric_value)` on the
mapped frame: `pd.isna` makes `clean_numeric_value` return `''` on a
`NaN` cell (modeled via `getD ""`), so cleaned columns contain no `NaN`
afterwards. -/
def cleanColsByM (pred : String → Bool) (t : MTable) : MTable :=
  { t with
    rows := t.rows.map (fun r =>
      r.mapIdx (fun i v =>
        if pred (t.cols.getD i "") then some (clean_numeric_value (v.getD "")) else v)) }

/-- Number-format cleaning applied after column mapping: clean the columns
named in `numeric_columns`; if none are present, fall back to
indicator-based auto-detection. -/
def postMapClean (t : MTable) : MTable :=
  if t.cols.any (fun h => numeric_columns.contains h) then
    cleanColsByM (fun h => numeric_columns.contains h) t
  else
    cleanColsByM (headerHasAny autoIndicatorsMapped) t

/-- Number-format cleaning without column mapping: clean indicator-matched
columns; if none match, strip every cell instead. -/
def nonMappingClean (t : Table) : Table :=
  if t.headers.any (headerHasAny autoIndicatorsUnmapped) then
    cleanColsBy (headerHasAny autoIndicatorsUnmapped) t
  else stripAllCols t

/-- The `ProductCode` alias patterns (`self.cin7_column_mapping['ProductCode']`). -/
def productCodeAliases : List String := ["productcode", "product_code", "product code"]

/-- First column whose lowercased name contains a `ProductCode` alias. -/
def findProductCodeCol (headers : List String) : Option Nat :=
  headers.findIdx? (fun h => productCodeAliases.any (fun p => strContains (pyLower h) p))

/-- The row-keeping test of the invalid-row filter: key value non-empty,
not `'nan'`, and not containing (case-insensitively) `Grand Total`,
`Total` or `ProductCode` (the regex `'Grand Total|Total|ProductCode'`
with `case=False`). -/
def keepRow (v : String) : Bool :=
  v != "" && v != "nan" &&
    !(strContains (pyLower v) "grand total" || strContains (pyLower v) "total" ||
      strContains (pyLower v) "productcode")

/-- The invalid-row filter (lines 1410–1430): skipped entirely in verbatim
mode, and also when no column name matches a `ProductCode` alias. -/
def rowFilterStep (verbatim : Bool) (t : Table) : Table :=
  if verbatim then t
  else
    match findProductCodeCol t.headers with
    | none => t
    | some j => { t with rows := t.rows.filter (fun r => keepRow (r.getD j "")) }

/-- `keepRow` on a mapped cell.  A `NaN` key is kept: `NaN` compares
unequal to `''` and to `'nan'`, and `str.contains(..., na=False)` yields
`False` for it, so the negated containment test passes too. -/
def keepCell : Option String → Bool
  | none => true
  | some v => keepRow v

/-- The invalid-row filter on the mapped frame (the same lines 1410–1430;
`ProductCode` is always among the mapped column names, so in non-verbatim
mode the filter always runs there). -/
def rowFilterStepM (verbatim : Bool) (t : MTable) : MTable :=
  if verbatim then t
  else
    match findProductCodeCol t.cols with
    | none => t
    | some j => { t with rows := t.rows.filter (fun r => keepCell (r.getD j (some ""))) }

/-- A plain working table viewed as a mapped frame: every cell present
(the working copy was `fillna('')`-ed before this point). -/
def MTable.ofTable (t : Table) : MTable :=
  { cols := t.headers, rows := t.rows.map (fun r => r.map some) }

/-- The processing configuration read from the UI checkboxes. -/
structure ProcConfig where
  verbatim : Bool
  column_mapping : Bool
deriving DecidableEq, Repr

/-- The stored `self.file_analysis`: the single-header read and, when the
dual-header read succeeded, the two-level read. -/
structure FileAnalysis where
  df : Table
  df_multi : Option Table
deriving DecidableEq, Repr

/-- `working_df = df_multi if df_multi is not None else df` in verbatim
mode, plain `df` otherwise. -/
def chooseWorking (cfg : ProcConfig) (fa : FileAnalysis) : Table :=
  if cfg.verbatim then
    match fa.df_multi with
    | some m => m
    | none => fa.df
  else fa.df

/-- The pure tail of the pipeline run on the flattened working table:
mapping (or not), numeric cleaning, then row filtering. -/
def pipelineRest (cfg : ProcConfig) (t : Table) : MTable :=
  if cfg.column_mapping then
    rowFilterStepM cfg.verbatim (postMapClean (apply_cin7_column_mapping_fixed t))
  else
    MTable.ofTable (rowFilterStep cfg.verbatim (nonMappingClean t))

/-- `process_cin7_excel_data_fixed`, state-passing model.  The column
flattening `working_df.columns = new_columns` mutates the stored analysis
table in place (it runs before the `fillna('')` copy); every later step
works on the copy.  Returns the updated stored analysis and the processed
table. -/
def process_cin7_excel_data_fixed (cfg : ProcConfig) (fa : FileAnalysis) :
    FileAnalysis × MTable :=
  let flat := flattenCols (chooseWorking cfg fa)
  let fa' :=
    if cfg.verbatim && fa.df_multi.isSome then { fa with df_multi := some flat }
    else { fa with df := flat }
  (fa', pipelineRest cfg flat)

/-! ## Upload and clear: traces, retries, rate limiting, cancellation

Network calls, sleeps and reads of the shared `upload_cancelled` flag are
recorded as events.  `cancel i` is the value of the flag at its `i`-th
read (the flag is written only by the UI thread); `fails k` tells whether
the `k`-th remote call of the phase raises. -/

/-- `self.upload_config` (plus UI overrides). -/
structure UploadConfig where
  batch_size : Nat
  max_retries : Nat
  retry_delay : Nat
  rate_limit_delay : Nat
deriving DecidableEq, Repr

/-- One observable event of an upload/clear run. -/
inductive Ev where
  /-- A read of the shared cancellation flag, with the value read. -/
  | poll (value : Bool)
  /-- A `Sheets.add_rows` call with the rows sent (each row a list of
  `(column id, value)` cells). -/
  | append (rows : List (List (Nat × String)))
  /-- A `Sheets.delete_rows` call with the row ids sent. -/
  | deleteRows (ids : List Nat)
  /-- `time.sleep(retry_delay * mult)`. -/
  | sleepRetry (mult : Nat)
  /-- `time.sleep(rate_limit_delay)`. -/
  | sleepRate
deriving DecidableEq, Repr

/-- Lookup in `{col.title: col.id for col in columns}` (later keys win). -/
def dictLookup (m : List (String × Nat)) (k : String) : Option Nat :=
  ((m.filter (fun p => p.1 == k)).reverse.head?).map (fun p => p.2)

/-- Build one remote row from a processed row (lines 141–160): one cell
per column whose title resolves in the remote column map and whose
stripped value is non-empty and none of `'nan'`, `'None'`, `'null'`;
numeric columns are re-cleaned at this point. -/
def buildRow (colMap : List (String × Nat)) (headers : List String)
    (row : List String) : List (Nat × String) :=
  (List.zip headers row).filterMap (fun cv =>
    match dictLookup colMap cv.1 with
    | none => none
    | some cid =>
      let clean := pyStrip cv.2
      if clean != "" && !(["nan", "None", "null"].contains clean) then
        some (cid, if numeric_columns.contains cv.1 then clean_numeric_value clean else clean)
      else none)

/-- The rows actually sent for one batch: rows with zero cells are
dropped silently (`if new_row.cells`). -/
def rowsToAdd (colMap : List (String × Nat)) (headers : List String)
    (batch : List (List String)) : List (List (Nat × String)) :=
  batch.filterMap (fun r =>
    let cells := buildRow colMap headers r
    if cells.isEmpty then none else some cells)

/-- `df.iloc[batch_num*bs : min((batch_num+1)*bs, total)]` for every batch. -/
def batchSlices (bs : Nat) (rows : List (List String)) : List (List (List String)) :=
  (List.range ((rows.length + bs - 1) / bs)).map (fun b => (rows.drop (b * bs)).take bs)

inductive AttemptRes where
  | ok | cancelled | exhausted
deriving DecidableEq, Repr

/-- The per-batch retry loop of `upload_data_enhanced` (lines 166–187):
poll the flag at the top of each attempt, call `add_rows`, back off
`retry_delay * (attempt+1)` between failures, raise on the last failure.
Arguments: attempt index, attempts remaining, `(polls, tries)` counters.
Returns the events, the updated counters and how the loop ended. -/
def attemptLoop (cancel fails : Nat → Bool) (payload : List (List (Nat × String)))
    (idx : Nat) : Nat → Nat × Nat → List Ev × (Nat × Nat) × AttemptRes
  | 0, st => ([], st, .exhausted)
  | remaining + 1, (polls, tries) =>
    let c := cancel polls
    if c then ([Ev.poll c], (polls + 1, tries), .cancelled)
    else if fails tries then
      if remaining == 0 then
        ([Ev.poll c, Ev.append payload], (polls + 1, tries + 1), .exhausted)
      else
        let r := attemptLoop cancel fails payload (idx + 1) remaining (polls + 1, tries + 1)
        (Ev.poll c :: Ev.append payload :: Ev.sleepRetry (idx + 1) :: r.1, r.2.1, r.2.2)
    else ([Ev.poll c, Ev.append payload], (polls + 1, tries + 1), .ok)

/-- The batch loop of `upload_data_enhanced` (lines 130–200): poll before
each batch, run the retry loop, pause `rate_limit_delay` after every batch
but the last.  Returns events, final counters, and the function's boolean
result (`False` on cancellation or batch failure). -/
def uploadGo (cancel fails : Nat → Bool) (maxRetries : Nat) :
    List (List (List (Nat × String))) → Nat × Nat → List Ev × (Nat × Nat) × Bool
  | [], st => ([], st, true)
  | payload :: restPayloads, (polls, tries) =>
    let c := cancel polls
    if c then ([Ev.poll c], (polls + 1, tries), false)
    else
      let a := attemptLoop cancel fails payload 0 maxRetries (polls + 1, tries)
      match a.2.2 with
      | .cancelled => (Ev.poll c :: a.1, a.2.1, false)
      | .exhausted => (Ev.poll c :: a.1, a.2.1, false)
      | .ok =>
        let rateEv := if restPayloads.isEmpty then [] else [Ev.sleepRate]
        let rest := uploadGo cancel fails maxRetries restPayloads a.2.1
        (Ev.poll c :: a.1 ++ rateEv ++ rest.1, rest.2.1, rest.2.2)

/-- `upload_data_enhanced`: returns the event trace, the boolean result,
and the number of flag reads consumed. -/
def upload_data_enhanced (cfg : UploadConfig) (cancel fails : Nat → Bool)
    (colMap : List (String × Nat)) (headers : List String)
    (rows : List (List String)) : List Ev × Bool × Nat :=
  let payloads := (batchSlices cfg.batch_size rows).map (rowsToAdd colMap headers)
  let r := uploadGo cancel fails cfg.max_retries payloads (0, 0)
  (r.1, r.2.2, r.2.1.1)

/-- The run outcome reported by `upload_process` (lines 1297–1312):
`success and not cancelled` → Completed, else cancelled → Cancelled,
else Failed. -/
inductive Outcome where
  | completed | cancelled | failed
deriving DecidableEq, Repr

def classify (ok flagAfter : Bool) : Outcome :=
  if ok && !flagAfter then .completed
  else if flagAfter then .cancelled
  else .failed

/-- The append calls of a trace, in order. -/
def appendsOf (tr : List Ev) : List (List (List (Nat × String))) :=
  tr.filterMap (fun e => match e with | Ev.append rs => some rs | _ => none)

/-- The delete calls of a trace, in order. -/
def deletesOf (tr : List Ev) : List (List Nat) :=
  tr.filterMap (fun e => match e with | Ev.deleteRows ids => some ids | _ => none)

/-- How `clear_smartsheet_data_enhanced` ends. -/
inductive ClearRes where
  /-- Ran to completion (also the trivial no-rows case). -/
  | done
  /-- Plain `return` after seeing the cancellation flag. -/
  | cancelled
  /-- A sub-batch exhausted its retries; the exception propagates. -/
  | raised
deriving DecidableEq, Repr

/-- The delete retry loop (lines 95–103): no cancellation poll inside,
fixed `retry_delay` backoff, raise on last failure.  With zero attempts
configured the `for` loop body never runs and execution continues
normally, hence the `true` in the base case. -/
def clearAttemptLoop (fails : Nat → Bool) (ids : List Nat) :
    Nat → Nat → List Ev × Nat × Bool
  | 0, tries => ([], tries, true)
  | remaining + 1, tries =>
    if fails tries then
      if remaining == 0 then ([Ev.deleteRows ids], tries + 1, false)
      else
        let r := clearAttemptLoop fails ids remaining (tries + 1)
        (Ev.deleteRows ids :: Ev.sleepRetry 1 :: r.1, r.2.1, r.2.2)
    else ([Ev.deleteRows ids], tries + 1, true)

/-- The sub-batch loop of `clear_smartsheet_data_enhanced` (lines 86–108):
slices of the fixed platform size 400 (independent of the configured
`batch_size`), a poll before each sub-batch, `rate_limit_delay` between
sub-batches. -/
def clearGo (cancel fails : Nat → Bool) (maxRetries : Nat) (ids : List Nat) :
    List Nat → Nat × Nat → List Ev × (Nat × Nat) × ClearRes
  | [], st => ([], st, .done)
  | b :: rest, (polls, tries) =>
    let c := cancel polls
    if c then ([Ev.poll c], (polls + 1, tries), .cancelled)
    else
      let idsB := (ids.drop (b * 400)).take 400
      let a := clearAttemptLoop fails idsB maxRetries tries
      if a.2.2 then
        let rateEv := if rest.isEmpty then [] else [Ev.sleepRate]
        let r := clearGo cancel fails maxRetries ids rest (polls + 1, a.2.1)
        (Ev.poll c :: a.1 ++ rateEv ++ r.1, r.2.1, r.2.2)
      else (Ev.poll c :: a.1, (polls + 1, a.2.1), .raised)

/-- `clear_smartsheet_data_enhanced`, on the row ids fetched from the
sheet (the metadata fetch and its own retry loop are upstream of the
claims and not modeled). -/
def clear_smartsheet_data_enhanced (cfg : UploadConfig) (cancel fails : Nat → Bool)
    (ids : List Nat) : List Ev × ClearRes :=
  if ids.isEmpty then ([], .done)
  else
    let totalB := (ids.length + 400 - 1) / 400
    let r := clearGo cancel fails cfg.max_retries ids (List.range totalB) (0, 0)
    (r.1, r.2.2)

/-- The quantity denoted by a raw currency-formatted number of claim C2:
an optional parenthesized negative, an optional dollar sign, digits with
optional comma separators, and an optional fractional part. -/
structure RawNumber where
  neg : Bool
  cur : Bool
  intPart : List Char
  frac : List Char
deriving DecidableEq, Repr

/-- The rendered input string of a `RawNumber`. -/
def RawNumber.render (t : RawNumber) : String :=
  String.mk ((if t.neg then ['('] else []) ++ (if t.cur then ['$'] else []) ++
    t.intPart ++ (if t.frac.isEmpty then [] else '.' :: t.frac) ++
    (if t.neg then [')'] else []))

/-- Integer digits of the raw number (commas removed). -/
def RawNumber.digits (t : RawNumber) : List Char := t.intPart.filter Char.isDigit

/-- Wellformedness of a raw currency-formatted number: the integer part
is digits and commas with at least one digit, the fractional part is at
most two digits. -/
def RawNumber.WF (t : RawNumber) : Prop :=
  (∀ c ∈ t.intPart, c.isDigit = true ∨ c = ',') ∧ t.digits ≠ [] ∧
    (∀ c ∈ t.frac, c.isDigit = true) ∧ t.frac.length ≤ 2

instance (t : RawNumber) : Decidable t.WF := by
  unfold RawNumber.WF
  infer_instance

/-- The quantity a `RawNumber` denotes, as an exact decimal value. -/
def RawNumber.val (t : RawNumber) : DecVal :=
  ⟨if t.neg then -(digsVal (t.digits ++ t.frac) : Int) else (digsVal (t.digits ++ t.frac) : Int),
    t.frac.length⟩

/-- Two exact decimal values denote the same rational quantity. -/
def crossEq (a b : DecVal) : Prop :=
  a.num * ((10 ^ b.e : Nat) : Int) = b.num * ((10 ^ a.e : Nat) : Int)

instance (a b : DecVal) : Decidable (crossEq a b) := by
  unfold crossEq
  infer_instance

/-- The row-dropping condition exactly as the specification phrases it
(claim C3): key empty, equal to `'nan'`, or case-insensitively containing
`'grand total'`, `'total'`, or `'productcode'`. -/
def dropRowSpec (v : String) : Bool :=
  v == "" || v == "nan" || strContains (pyLower v) "grand total" ||
    strContains (pyLower v) "total" || strContains (pyLower v) "productcode"

/-! ## Helper lemmas -/

theorem keepRow_eq_not_dropRowSpec (v : String) : keepRow v = !dropRowSpec v := by
  unfold keepRow dropRowSpec
  cases h1 : v == "" <;> cases h2 : v == "nan" <;>
    cases h3 : strContains (pyLower v) "grand total" <;>
    cases h4 : strContains (pyLower v) "total" <;>
    cases h5 : strContains (pyLower v) "productcode" <;>
    simp [bne, h1, h2, h3, h4, h5]

theorem flattenCols_idem (t : Table) : flattenCols (flattenCols t) = flattenCols t := by
  cases t with
  | mk cols rows => cases cols <;> rfl

theorem filterMap_isEmpty_eq_filter {α β : Type} (f : α → List β) (l : List α) :
    l.filterMap (fun r =>
      let cells := f r
      if cells.isEmpty then none else some cells) =
    (l.map f).filter (fun cells => !cells.isEmpty) := by
  induction l with
  | nil => rfl
  | cons a l ih =>
    by_cases h : (f a).isEmpty <;> simp [List.filterMap_cons, h, ih]

/-! ## Character and digit-string lemmas (for claim C2) -/

theorem digit_toNat {c : Char} (h : c.isDigit = true) : 48 ≤ c.toNat ∧ c.toNat ≤ 57 := by
  unfold Char.isDigit at h
  simp [decide_eq_true_eq] at h
  exact ⟨h.1, h.2⟩

theorem digit_ne {c : Char} (h : c.isDigit = true) {x : Char} (hx : x.isDigit = false) :
    c ≠ x := by
  intro he
  rw [he, hx] at h
  exact Bool.false_ne_true h

theorem digit_beq_false {c : Char} (h : c.isDigit = true) {x : Char}
    (hx : x.isDigit = false) : (c == x) = false :=
  beq_eq_false_iff_ne.mpr (digit_ne h hx)

theorem digit_isSpace {c : Char} (h : c.isDigit = true) : isSpaceChar c = false := by
  cases hs : isSpaceChar c with
  | false => rfl
  | true =>
    exfalso
    unfold isSpaceChar at hs
    rcases Bool.or_eq_true_iff.mp hs with hs | h6
    rcases Bool.or_eq_true_iff.mp hs with hs | h5
    rcases Bool.or_eq_true_iff.mp hs with hs | h4
    rcases Bool.or_eq_true_iff.mp hs with hs | h3
    rcases Bool.or_eq_true_iff.mp hs with h1 | h2
    · exact digit_ne h (by decide) (beq_iff_eq.mp h1)
    · exact digit_ne h (by decide) (beq_iff_eq.mp h2)
    · exact digit_ne h (by decide) (beq_iff_eq.mp h3)
    · exact digit_ne h (by decide) (beq_iff_eq.mp h4)
    · exact digit_ne h (by decide) (beq_iff_eq.mp h5)
    · exact digit_ne h (by decide) (beq_iff_eq.mp h6)

theorem digit_toLower {c : Char} (h : c.isDigit = true) : c.toLower = c := by
  unfold Char.toLower
  have := (digit_toNat h).2
  rw [if_neg]
  omega

theorem filter_ne_of_all {l : List Char} {x : Char} (h : ∀ c ∈ l, c ≠ x) :
    l.filter (fun c => c != x) = l :=
  List.filter_eq_self.mpr (fun c hc => bne_iff_ne.mpr (h c hc))

theorem map_paren_of_all {l : List Char} (h : ∀ c ∈ l, c ≠ '(') :
    l.map (fun c => if c == '(' then '-' else c) = l := by
  induction l with
  | nil => rfl
  | cons a l ih =>
    have ha : (a == '(') = false := beq_eq_false_iff_ne.mpr (h a (List.mem_cons_self a l))
    simp only [List.map_cons, ha, Bool.false_eq_true, if_false]
    rw [ih (fun c hc => h c (List.mem_cons_of_mem a hc))]

theorem dropWhile_eq_self_of {p : Char → Bool} {l : List Char}
    (h : ∀ c ∈ l, p c = false) : l.dropWhile p = l := by
  cases l with
  | nil => rfl
  | cons a l =>
    rw [List.dropWhile_cons, if_neg]
    simp [h a (List.mem_cons_self a l)]

theorem trimL_eq_self {l : List Char} (h : ∀ c ∈ l, isSpaceChar c = false) :
    trimL l = l := by
  unfold trimL
  rw [dropWhile_eq_self_of h,
    dropWhile_eq_self_of (fun c hc => h c (List.mem_reverse.mp hc)), List.reverse_reverse]

theorem dpAux_digits : ∀ {l : List Char}, (∀ c ∈ l, c.isDigit = true) → dpAux l = true := by
  intro l
  induction l with
  | nil => intro _; rfl
  | cons a l ih =>
    intro h
    have ha : (a == '_') = false := digit_beq_false (h a (List.mem_cons_self a l)) (by decide)
    unfold dpAux
    rw [ha]
    simp only [Bool.false_eq_true, if_false]
    rw [h a (List.mem_cons_self a l), ih (fun c hc => h c (List.mem_cons_of_mem a hc))]
    rfl

theorem isDigitpart_digits {l : List Char} (h : ∀ c ∈ l, c.isDigit = true) (hne : l ≠ []) :
    isDigitpart l = true := by
  cases l with
  | nil => exact absurd rfl hne
  | cons a l =>
    rw [show isDigitpart (a :: l) = (a.isDigit && dpAux l) from rfl,
      h a (List.mem_cons_self a l), dpAux_digits (fun c hc => h c (List.mem_cons_of_mem a hc))]
    rfl

theorem stripUnders_digits {l : List Char} (h : ∀ c ∈ l, c.isDigit = true) :
    stripUnders l = l :=
  filter_ne_of_all (fun c hc => digit_ne (h c hc) (by decide))

theorem splitFirst_cons (p : Char → Bool) (c : Char) (cs : List Char) :
    splitFirst p (c :: cs) =
      if p c then ([], some cs) else (c :: (splitFirst p cs).1, (splitFirst p cs).2) := rfl

theorem splitFirst_none {p : Char → Bool} {l : List Char} (h : ∀ c ∈ l, p c = false) :
    splitFirst p l = (l, none) := by
  induction l with
  | nil => rfl
  | cons a l ih =>
    rw [splitFirst_cons, if_neg (by simp [h a (List.mem_cons_self a l)]),
      ih (fun c hc => h c (List.mem_cons_of_mem a hc))]

theorem splitFirst_first {p : Char → Bool} {pre post : List Char} {c : Char}
    (hpre : ∀ x ∈ pre, p x = false) (hc : p c = true) :
    splitFirst p (pre ++ c :: post) = (pre, some post) := by
  induction pre with
  | nil =>
    rw [List.nil_append, splitFirst_cons, if_pos (by simp [hc])]
  | cons a l ih =>
    rw [List.cons_append, splitFirst_cons, if_neg (by simp [hpre a (List.mem_cons_self a l)]),
      ih (fun x hx => hpre x (List.mem_cons_of_mem a hx))]

theorem digsVal_from (l : List Char) :
    ∀ init : Nat, l.foldl (fun a c => a * 10 + digitVal c) init =
      init * 10 ^ l.length + l.foldl (fun a c => a * 10 + digitVal c) 0 := by
  induction l with
  | nil => intro init; simp
  | cons c l ih =>
    intro init
    rw [List.foldl_cons, List.foldl_cons, ih (init * 10 + digitVal c),
      ih (0 * 10 + digitVal c), List.length_cons]
    ring

theorem digsVal_append (a b : List Char) :
    digsVal (a ++ b) = digsVal a * 10 ^ b.length + digsVal b := by
  unfold digsVal
  rw [List.foldl_append]
  exact digsVal_from b _

theorem digsVal_single (c : Char) : digsVal [c] = digitVal c := by
  unfold digsVal
  simp

theorem digitVal_digitChar {k : Nat} (h : k < 10) : digitVal (digitChar k) = k := by
  interval_cases k <;> rfl

theorem digitChar_isDigit {k : Nat} (h : k < 10) : (digitChar k).isDigit = true := by
  interval_cases k <;> decide

theorem digitChar_eq_zero {k : Nat} (h : k < 10) : (digitChar k = '0') ↔ k = 0 := by
  interval_cases k <;> simp <;> decide

theorem natDigitsAux_spec :
    ∀ (fuel n : Nat), n < fuel →
      digsVal (natDigitsAux fuel n) = n ∧ (∀ c ∈ natDigitsAux fuel n, c.isDigit = true) ∧
        natDigitsAux fuel n ≠ [] := by
  intro fuel
  induction fuel with
  | zero => intro n hn; omega
  | succ fuel ih =>
    intro n hn
    unfold natDigitsAux
    by_cases h10 : n < 10
    · rw [if_pos h10]
      refine ⟨?_, ?_, by simp⟩
      · rw [digsVal_single, digitVal_digitChar h10]
      · intro c hc
        rw [List.mem_singleton.mp hc]
        exact digitChar_isDigit h10
    · rw [if_neg h10]
      have hdiv : n / 10 < fuel := by omega
      obtain ⟨ihv, ihd, ihne⟩ := ih (n / 10) hdiv
      refine ⟨?_, ?_, by simp⟩
      · rw [digsVal_append, ihv, List.length_singleton, digsVal_single,
          digitVal_digitChar (by omega)]
        omega
      · intro c hc
        rcases List.mem_append.mp hc with hc | hc
        · exact ihd c hc
        · rw [List.mem_singleton.mp hc]
          exact digitChar_isDigit (by omega)

theorem natDigits_spec (n : Nat) :
    digsVal (natDigits n) = n ∧ (∀ c ∈ natDigits n, c.isDigit = true) ∧ natDigits n ≠ [] :=
  natDigitsAux_spec (n + 1) n (Nat.lt_succ_self n)

theorem rstripL_noop {Y : List Char} {c ch : Char} (h : (c == ch) = false) :
    rstripL (Y ++ [c]) ch = Y ++ [c] := by
  unfold rstripL
  rw [List.reverse_append, List.reverse_singleton, List.singleton_append,
    List.dropWhile_cons, if_neg (by simp [h]), List.reverse_cons, List.reverse_reverse]

theorem rstripL_drop_one {Y : List Char} {c d : Char} (h : (c == d) = false) :
    rstripL (Y ++ [c, d]) d = Y ++ [c] := by
  unfold rstripL
  have hrev : (Y ++ [c, d]).reverse = d :: c :: Y.reverse := by simp
  rw [hrev, List.dropWhile_cons, if_pos (by simp), List.dropWhile_cons,
    if_neg (by simp [h]), List.reverse_cons, List.reverse_reverse]

theorem rstripL_drop_two {Y : List Char} {c d : Char} (h : (c == d) = false) :
    rstripL (Y ++ [c, d, d]) d = Y ++ [c] := by
  unfold rstripL
  have hrev : (Y ++ [c, d, d]).reverse = d :: d :: c :: Y.reverse := by simp
  rw [hrev, List.dropWhile_cons, if_pos (by simp), List.dropWhile_cons, if_pos (by simp),
    List.dropWhile_cons, if_neg (by simp [h]), List.reverse_cons, List.reverse_reverse]

theorem splitSign_neg (r : List Char) : splitSign ('-' :: r) = (true, r) := by
  simp [splitSign]

theorem splitSign_keep {c : Char} (r : List Char) (h1 : c ≠ '-') (h2 : c ≠ '+') :
    splitSign (c :: r) = (false, c :: r) := by
  simp [splitSign, h1, h2]

theorem splitSign_digit {c : Char} (r : List Char) (h : c.isDigit = true) :
    splitSign (c :: r) = (false, c :: r) :=
  splitSign_keep r (digit_ne h (by decide)) (digit_ne h (by decide))

theorem eCheck_digit {c : Char} (h : c.isDigit = true) :
    ((c == 'e') || (c == 'E')) = false := by
  rw [digit_beq_false h (by decide), digit_beq_false h (by decide)]
  rfl

theorem dotCheck_digit {c : Char} (h : c.isDigit = true) : (c == '.') = false :=
  digit_beq_false h (by decide)

/-- Parsing a sign + digit string + optional 1–2 digit fraction: the core
of the round-trip argument for claim C2.  The result is the denoted exact
decimal, guarded by the overflow and underflow-to-zero caps. -/
theorem pyFloat_digits_core (neg : Bool) (D F : List Char)
    (hD : ∀ c ∈ D, c.isDigit = true) (hne : D ≠ [])
    (hF : ∀ c ∈ F, c.isDigit = true) :
    pyFloat? (String.mk ((if neg then ['-'] else []) ++ D ++
        (if F.isEmpty then [] else '.' :: F))) =
      (if floatCap * 10 ^ F.length ≤ digsVal (D ++ F) then none
       else if digsVal (D ++ F) * underflowScale ≤ 10 ^ F.length then some ⟨0, 0⟩
       else some ⟨if neg then -(digsVal (D ++ F) : Int) else (digsVal (D ++ F) : Int),
         F.length⟩) := by
  obtain ⟨d0, D', rfl⟩ : ∃ d0 D', D = d0 :: D' := by
    cases D with
    | nil => exact absurd rfl hne
    | cons d0 D' => exact ⟨d0, D', rfl⟩
  have hd0 : d0.isDigit = true := hD d0 (List.mem_cons_self d0 D')
  have hD' : ∀ c ∈ D', c.isDigit = true := fun c hc => hD c (List.mem_cons_of_mem d0 hc)
  have hdp : isDigitpart (d0 :: D') = true := isDigitpart_digits hD (by simp)
  have hsu : stripUnders (d0 :: D') = d0 :: D' := stripUnders_digits hD
  cases F with
  | nil =>
    have hall : ∀ c ∈ (d0 :: D'), isSpaceChar c = false := fun c hc => digit_isSpace (hD c hc)
    have hsplitE : splitFirst (fun c => c == 'e' || c == 'E') (d0 :: D') =
        (d0 :: D', none) := splitFirst_none (fun c hc => eCheck_digit (hD c hc))
    have hsplitDot : splitFirst (fun c => c == '.') (d0 :: D') = (d0 :: D', none) :=
      splitFirst_none (fun c hc => dotCheck_digit (hD c hc))
    have hsu0 : stripUnders ([] : List Char) = [] := rfl
    cases neg with
    | true =>
      have hall' : ∀ c ∈ ('-' :: (d0 :: D')), isSpaceChar c = false := by
        intro c hc
        rcases List.mem_cons.mp hc with rfl | hc
        · rfl
        · exact hall c hc
      simp [pyFloat?, trimL_eq_self hall', splitSign_neg, hsplitE, hsplitDot, hdp,
        hsu, hsu0]
    | false =>
      simp [pyFloat?, trimL_eq_self hall, splitSign_digit D' hd0, hsplitE, hsplitDot,
        hdp, hsu, hsu0]
  | cons f0 F' =>
    have hdpF : isDigitpart (f0 :: F') = true := isDigitpart_digits hF (by simp)
    have hsuF : stripUnders (f0 :: F') = f0 :: F' := stripUnders_digits hF
    have hallM : ∀ c ∈ (d0 :: (D' ++ '.' :: (f0 :: F'))), isSpaceChar c = false := by
      intro c hc
      rcases List.mem_cons.mp hc with rfl | hc
      · exact digit_isSpace hd0
      · rcases List.mem_append.mp hc with hc | hc
        · exact digit_isSpace (hD' c hc)
        · rcases List.mem_cons.mp hc with rfl | hc
          · rfl
          · exact digit_isSpace (hF c hc)
    have hsplitE : splitFirst (fun c => c == 'e' || c == 'E')
        (d0 :: (D' ++ '.' :: (f0 :: F'))) = (d0 :: (D' ++ '.' :: (f0 :: F')), none) := by
      refine splitFirst_none ?_
      intro c hc
      rcases List.mem_cons.mp hc with rfl | hc
      · exact eCheck_digit hd0
      · rcases List.mem_append.mp hc with hc | hc
        · exact eCheck_digit (hD' c hc)
        · rcases List.mem_cons.mp hc with rfl | hc
          · rfl
          · exact eCheck_digit (hF c hc)
    have hsplitDot : splitFirst (fun c => c == '.')
        (d0 :: (D' ++ '.' :: (f0 :: F'))) = (d0 :: D', some (f0 :: F')) := by
      rw [← List.cons_append]
      exact splitFirst_first (fun c hc => dotCheck_digit (hD c hc)) rfl
    cases neg with
    | true =>
      have hall' : ∀ c ∈ ('-' :: (d0 :: (D' ++ '.' :: (f0 :: F')))),
          isSpaceChar c = false := by
        intro c hc
        rcases List.mem_cons.mp hc with rfl | hc
        · rfl
        · exact hallM c hc
      simp [pyFloat?, trimL_eq_self hall', splitSign_neg, hsplitE, hsplitDot, hdp,
        hdpF, hsu, hsuF]
    | false =>
      have hsign : splitSign (d0 :: (D' ++ '.' :: (f0 :: F'))) =
          (false, d0 :: (D' ++ '.' :: (f0 :: F'))) := splitSign_digit _ hd0
      simp [pyFloat?, trimL_eq_self hallM, hsign, hsplitE, hsplitDot,
        hdp, hdpF, hsu, hsuF]

theorem underflow_excluded {N len : Nat} (h1 : 1 ≤ N) (hlen : len ≤ 2) :
    ¬(N * underflowScale ≤ 10 ^ len) := by
  have hpow : 10 ^ len ≤ 100 := by
    calc 10 ^ len ≤ 10 ^ 2 := Nat.pow_le_pow_right (by norm_num) hlen
      _ = 100 := by norm_num
  have huS : 100 < underflowScale := by decide
  have huS2 : underflowScale ≤ N * underflowScale := by
    calc underflowScale = 1 * underflowScale := (Nat.one_mul _).symm
      _ ≤ N * underflowScale := Nat.mul_le_mul_right _ h1
  exact Nat.not_le.mpr (lt_of_le_of_lt hpow (lt_of_lt_of_le huS huS2))

theorem pyFloat_digits_pos (neg : Bool) (D F : List Char)
    (hD : ∀ c ∈ D, c.isDigit = true) (hne : D ≠ [])
    (hF : ∀ c ∈ F, c.isDigit = true)
    (h1 : 1 ≤ digsVal (D ++ F)) (hlen : F.length ≤ 2)
    (hcap : digsVal (D ++ F) < floatCap * 10 ^ F.length) :
    pyFloat? (String.mk ((if neg then ['-'] else []) ++ D ++
        (if F.isEmpty then [] else '.' :: F))) =
      some ⟨if neg then -(digsVal (D ++ F) : Int) else (digsVal (D ++ F) : Int),
        F.length⟩ := by
  rw [pyFloat_digits_core neg D F hD hne hF, if_neg (by omega),
    if_neg (underflow_excluded h1 hlen)]

theorem parse_int_neg (D : List Char) (hD : ∀ c ∈ D, c.isDigit = true) (hne : D ≠ [])
    (h1 : 1 ≤ digsVal D) (hcap : digsVal D < floatCap) :
    pyFloat? (String.mk ('-' :: D)) = some ⟨-(digsVal D : Int), 0⟩ := by
  have h := pyFloat_digits_pos true D [] hD hne (by simp) (by simpa) (by norm_num)
    (by simpa)
  simpa using h

theorem parse_int_plain (D : List Char) (hD : ∀ c ∈ D, c.isDigit = true) (hne : D ≠ [])
    (h1 : 1 ≤ digsVal D) (hcap : digsVal D < floatCap) :
    pyFloat? (String.mk D) = some ⟨(digsVal D : Int), 0⟩ := by
  have h := pyFloat_digits_pos false D [] hD hne (by simp) (by simpa) (by norm_num)
    (by simpa)
  simpa using h

theorem parse_frac_neg (D F : List Char) (hD : ∀ c ∈ D, c.isDigit = true) (hne : D ≠ [])
    (hF : ∀ c ∈ F, c.isDigit = true) (hFne : F ≠ [])
    (h1 : 1 ≤ digsVal (D ++ F)) (hlen : F.length ≤ 2)
    (hcap : digsVal (D ++ F) < floatCap * 10 ^ F.length) :
    pyFloat? (String.mk ('-' :: (D ++ '.' :: F))) =
      some ⟨-(digsVal (D ++ F) : Int), F.length⟩ := by
  have h := pyFloat_digits_pos true D F hD hne hF h1 hlen hcap
  obtain ⟨f0, F', rfl⟩ : ∃ f0 F', F = f0 :: F' := by
    cases F with
    | nil => exact absurd rfl hFne
    | cons f0 F' => exact ⟨f0, F', rfl⟩
  simpa using h

theorem parse_frac_plain (D F : List Char) (hD : ∀ c ∈ D, c.isDigit = true) (hne : D ≠ [])
    (hF : ∀ c ∈ F, c.isDigit = true) (hFne : F ≠ [])
    (h1 : 1 ≤ digsVal (D ++ F)) (hlen : F.length ≤ 2)
    (hcap : digsVal (D ++ F) < floatCap * 10 ^ F.length) :
    pyFloat? (String.mk (D ++ '.' :: F)) =
      some ⟨(digsVal (D ++ F) : Int), F.length⟩ := by
  have h := pyFloat_digits_pos false D F hD hne hF h1 hlen hcap
  obtain ⟨f0, F', rfl⟩ : ∃ f0 F', F = f0 :: F' := by
    cases F with
    | nil => exact absurd rfl hFne
    | cons f0 F' => exact ⟨f0, F', rfl⟩
  simpa using h

theorem scrub_append (a b : List Char) : scrub (a ++ b) = scrub a ++ scrub b := by
  simp [scrub, List.filter_append, List.map_append]

theorem filter_comma_digits {l : List Char} (h : ∀ c ∈ l, c.isDigit = true ∨ c = ',') :
    l.filter (fun c => c != ',') = l.filter Char.isDigit := by
  induction l with
  | nil => rfl
  | cons a l ih =>
    rcases h a (List.mem_cons_self a l) with ha | ha
    · rw [List.filter_cons_of_pos (by simpa using digit_ne ha (by decide)),
        List.filter_cons_of_pos (by simpa using ha),
        ih (fun c hc => h c (List.mem_cons_of_mem a hc))]
    · subst ha
      rw [List.filter_cons_of_neg (by simp), List.filter_cons_of_neg (by simp),
        ih (fun c hc => h c (List.mem_cons_of_mem ',' hc))]

theorem scrub_digits {l : List Char} (h : ∀ c ∈ l, c.isDigit = true) : scrub l = l := by
  unfold scrub
  rw [filter_ne_of_all (fun c hc => digit_ne (h c hc) (by decide))]
  rw [filter_ne_of_all (fun c hc => digit_ne (h c hc) (by decide))]
  rw [filter_ne_of_all (fun c hc => digit_ne (h c hc) (by decide))]
  rw [map_paren_of_all (fun c hc => digit_ne (h c hc) (by decide))]
  rw [filter_ne_of_all (fun c hc => digit_ne (h c hc) (by decide))]

theorem scrub_digits_commas {l : List Char} (h : ∀ c ∈ l, c.isDigit = true ∨ c = ',') :
    scrub l = l.filter Char.isDigit := by
  have hd : ∀ c ∈ l.filter Char.isDigit, c.isDigit = true := fun c hc =>
    (List.mem_filter.mp hc).2
  unfold scrub
  rw [filter_comma_digits h]
  rw [filter_ne_of_all (fun c hc => digit_ne (hd c hc) (by decide))]
  rw [filter_ne_of_all (fun c hc => digit_ne (hd c hc) (by decide))]
  rw [map_paren_of_all (fun c hc => digit_ne (hd c hc) (by decide))]
  rw [filter_ne_of_all (fun c hc => digit_ne (hd c hc) (by decide))]

theorem mem_ite_single {P : Prop} [Decidable P] {x c : Char}
    (h : c ∈ (if P then [x] else [])) : c = x := by
  by_cases hp : P
  · rw [if_pos hp] at h
    exact List.mem_singleton.mp h
  · rw [if_neg hp] at h
    exact absurd h (List.not_mem_nil c)

theorem mem_ite_rest {P : Prop} [Decidable P] {c : Char} {l : List Char}
    (h : c ∈ (if P then ([] : List Char) else l)) : c ∈ l := by
  by_cases hp : P
  · rw [if_pos hp] at h
    exact absurd h (List.not_mem_nil c)
  · rwa [if_neg hp] at h

/-- Scrubbing a rendered raw currency number yields the sign, the bare
digits, and the fractional part. -/
theorem cleanChars_render (t : RawNumber) (hWF : t.WF) :
    cleanChars t.render = (if t.neg then ['-'] else []) ++ (t.digits ++
      (if t.frac.isEmpty then [] else '.' :: t.frac)) := by
  obtain ⟨hint, hdne, hfr, hflen⟩ := hWF
  have hall : ∀ c ∈ t.render.data, isSpaceChar c = false := by
    intro c hc
    unfold RawNumber.render at hc
    simp only [String.mk] at hc
    rcases List.mem_append.mp hc with hc | hc
    · rcases List.mem_append.mp hc with hc | hc
      · rcases List.mem_append.mp hc with hc | hc
        · rcases List.mem_append.mp hc with hc | hc
          · rw [mem_ite_single hc]
            rfl
          · rw [mem_ite_single hc]
            rfl
        · rcases hint c hc with h | h
          · exact digit_isSpace h
          · rw [h]
            rfl
      · have := mem_ite_rest hc
        rcases List.mem_cons.mp this with rfl | hcc
        · rfl
        · exact digit_isSpace (hfr c hcc)
    · rw [mem_ite_single hc]
      rfl
  unfold cleanChars
  rw [trimL_eq_self hall]
  show scrub ((if t.neg then ['('] else []) ++ (if t.cur then ['$'] else []) ++
    t.intPart ++ (if t.frac.isEmpty then [] else '.' :: t.frac) ++
    (if t.neg then [')'] else [])) = _
  rw [scrub_append, scrub_append, scrub_append, scrub_append]
  rw [apply_ite scrub, apply_ite scrub, apply_ite scrub, apply_ite scrub]
  rw [show scrub ['('] = ['-'] from rfl, show scrub ['$'] = [] from rfl,
    show scrub [')'] = [] from rfl, show scrub ([] : List Char) = [] from rfl]
  rw [scrub_digits_commas hint]
  have hfrs : scrub ('.' :: t.frac) = '.' :: t.frac := by
    rw [show ('.' :: t.frac) = ['.'] ++ t.frac from rfl, scrub_append,
      show scrub ['.'] = ['.'] from rfl, scrub_digits hfr]
  rw [hfrs]
  rw [ite_self, RawNumber.digits]
  cases hn : t.neg <;> simp

theorem crossEq_neg {n : Int} {e V e2 : Nat} (hneg : n < 0)
    (hkey : V * 10 ^ e = n.natAbs * 10 ^ e2) : crossEq ⟨-(V : Int), e2⟩ ⟨n, e⟩ := by
  unfold crossEq
  have hc : (V : Int) * ((10 ^ e : Nat) : Int) = (n.natAbs : Int) * ((10 ^ e2 : Nat) : Int) := by
    exact_mod_cast hkey
  have hnn : (n.natAbs : Int) = -n := by omega
  calc (-(V : Int)) * ((10 ^ e : Nat) : Int)
      = -((V : Int) * ((10 ^ e : Nat) : Int)) := by ring
    _ = -((n.natAbs : Int) * ((10 ^ e2 : Nat) : Int)) := by rw [hc]
    _ = n * ((10 ^ e2 : Nat) : Int) := by rw [hnn]; ring

theorem crossEq_pos {n : Int} {e V e2 : Nat} (hpos : ¬n < 0)
    (hkey : V * 10 ^ e = n.natAbs * 10 ^ e2) : crossEq ⟨(V : Int), e2⟩ ⟨n, e⟩ := by
  unfold crossEq
  have hc : (V : Int) * ((10 ^ e : Nat) : Int) = (n.natAbs : Int) * ((10 ^ e2 : Nat) : Int) := by
    exact_mod_cast hkey
  have hnn : (n.natAbs : Int) = n := by omega
  rw [hc, hnn]

theorem digsVal_pair (a b : Char) : digsVal [a, b] = digitVal a * 10 + digitVal b := by
  unfold digsVal
  simp [List.foldl]

/-- Round trip through the `f"{v:.2f}".rstrip('0').rstrip('.')` rendering:
the printed string parses back to a value denoting the same quantity. -/
theorem fmt2_parse_aux (n : Int) (e R : Nat)
    (hRP : R * 10 ^ e = n.natAbs * 100) (hR1 : 0 < R) (hRcap : R < floatCap * 100) :
    ∃ d2 : DecVal, pyFloat? (String.mk (rstripL (rstripL
      ((if n < 0 then ['-'] else []) ++ natDigits (R / 100) ++
        '.' :: [digitChar (R % 100 / 10), digitChar (R % 100 % 10)]) '0') '.')) = some d2 ∧
      crossEq d2 ⟨n, e⟩ := by
  obtain ⟨hdv, hdd, hdne⟩ := natDigits_spec (R / 100)
  set S : List Char := if n < 0 then ['-'] else [] with hS
  set ND : List Char := natDigits (R / 100) with hND
  have hf100 : R % 100 < 100 := Nat.mod_lt _ (by norm_num)
  by_cases hf0 : R % 100 = 0
  · -- fraction `00`: both decimal digits and the point are stripped
    have h100dvd : 100 ∣ R := Nat.dvd_of_mod_eq_zero hf0
    have hstr : rstripL (rstripL (S ++ ND ++
        '.' :: [digitChar (R % 100 / 10), digitChar (R % 100 % 10)]) '0') '.' = S ++ ND := by
      rw [hf0]
      rw [show ('.' :: [digitChar (0 / 10), digitChar (0 % 10)]) = ['.', '0', '0'] from rfl]
      rw [rstripL_drop_two (by decide)]
      rcases List.eq_nil_or_concat ND with hnil | ⟨E, lc, hE⟩
      · exact absurd hnil hdne
      · have hlc : lc.isDigit = true := hdd lc (by rw [hE]; simp)
        rw [hE, List.concat_eq_append, ← List.append_assoc,
          List.append_assoc (S ++ E) [lc] ['.'],
          show ([lc] ++ ['.'] : List Char) = [lc, '.'] from rfl,
          rstripL_drop_one (digit_beq_false hlc (by decide)), List.append_assoc,
          ← List.concat_eq_append, ← hE]
    rw [hstr]
    have hip1 : 1 ≤ digsVal ND := by rw [hND, hdv]; omega
    have hipcap : digsVal ND < floatCap := by rw [hND, hdv]; omega
    have hkey : (R / 100) * 10 ^ e = n.natAbs * 10 ^ 0 := by
      have h2 : ((R / 100) * 10 ^ e) * 100 = (n.natAbs * 10 ^ 0) * 100 := by
        calc ((R / 100) * 10 ^ e) * 100 = ((R / 100) * 100) * 10 ^ e := by ring
          _ = R * 10 ^ e := by rw [Nat.div_mul_cancel h100dvd]
          _ = n.natAbs * 100 := hRP
          _ = (n.natAbs * 10 ^ 0) * 100 := by ring
      exact Nat.eq_of_mul_eq_mul_right (by norm_num) h2
    by_cases hneg : n < 0
    · refine ⟨⟨-((digsVal ND : Nat) : Int), 0⟩, ?_, ?_⟩
      · rw [hS, if_pos hneg, List.singleton_append]
        exact parse_int_neg ND (by rw [hND]; exact hdd) (by rw [hND]; exact hdne) hip1 hipcap
      · rw [hND, hdv]
        exact crossEq_neg hneg hkey
    · refine ⟨⟨((digsVal ND : Nat) : Int), 0⟩, ?_, ?_⟩
      · rw [hS, if_neg hneg, List.nil_append]
        exact parse_int_plain ND (by rw [hND]; exact hdd) (by rw [hND]; exact hdne) hip1 hipcap
      · rw [hND, hdv]
        exact crossEq_pos hneg hkey
  · by_cases hf10 : R % 100 % 10 = 0
    · -- fraction `x0` with `x ≠ 0`: the low zero and nothing else stripped
      have hx : 1 ≤ R % 100 / 10 := by omega
      have hx10 : R % 100 / 10 < 10 := by omega
      have hc1 : (digitChar (R % 100 / 10)).isDigit = true := digitChar_isDigit hx10
      have hc1ne : (digitChar (R % 100 / 10) == '0') = false := by
        refine beq_eq_false_iff_ne.mpr ?_
        rw [ne_eq, digitChar_eq_zero hx10]
        omega
      have hstr : rstripL (rstripL (S ++ ND ++
          '.' :: [digitChar (R % 100 / 10), digitChar (R % 100 % 10)]) '0') '.' =
          S ++ (ND ++ '.' :: [digitChar (R % 100 / 10)]) := by
        rw [hf10, show digitChar 0 = '0' from rfl]
        rw [show ((S ++ ND) ++ '.' :: [digitChar (R % 100 / 10), '0']) =
          ((S ++ ND) ++ ['.']) ++ [digitChar (R % 100 / 10), '0'] from by simp]
        rw [rstripL_drop_one hc1ne, rstripL_noop (digit_beq_false hc1 (by decide))]
        simp
      rw [hstr]
      have hdval : digsVal (ND ++ [digitChar (R % 100 / 10)]) = R / 10 := by
        rw [digsVal_append, hND, hdv, List.length_singleton, digsVal_single,
          digitVal_digitChar hx10]
        omega
      have h10dvdR : R % 10 = 0 := by omega
      have hkey : (R / 10) * 10 ^ e = n.natAbs * 10 ^ 1 := by
        have h2 : ((R / 10) * 10 ^ e) * 10 = (n.natAbs * 10 ^ 1) * 10 := by
          calc ((R / 10) * 10 ^ e) * 10 = ((R / 10) * 10) * 10 ^ e := by ring
            _ = R * 10 ^ e := by rw [Nat.div_mul_cancel (Nat.dvd_of_mod_eq_zero h10dvdR)]
            _ = n.natAbs * 100 := hRP
            _ = (n.natAbs * 10 ^ 1) * 10 := by ring
        exact Nat.eq_of_mul_eq_mul_right (by norm_num) h2
      have hDdig : ∀ c ∈ ND, c.isDigit = true := by rw [hND]; exact hdd
      have hDne : ND ≠ [] := by rw [hND]; exact hdne
      have hFdig : ∀ c ∈ [digitChar (R % 100 / 10)], c.isDigit = true := by
        intro c hc
        rw [List.mem_singleton.mp hc]
        exact hc1
      have hge : 1 ≤ digsVal (ND ++ [digitChar (R % 100 / 10)]) := by
        rw [hdval]; omega
      have hcap2 : digsVal (ND ++ [digitChar (R % 100 / 10)]) <
          floatCap * 10 ^ ([digitChar (R % 100 / 10)] : List Char).length := by
        rw [hdval, List.length_singleton]
        have : R / 10 < floatCap * 10 := by omega
        simpa using this
      by_cases hneg : n < 0
      · refine ⟨⟨-((digsVal (ND ++ [digitChar (R % 100 / 10)]) : Nat) : Int), 1⟩, ?_, ?_⟩
        · rw [hS, if_pos hneg, List.singleton_append]
          have h := parse_frac_neg ND [digitChar (R % 100 / 10)] hDdig hDne hFdig
            (by simp) hge (by simp) hcap2
          simpa using h
        · rw [hdval]
          exact crossEq_neg hneg hkey
      · refine ⟨⟨((digsVal (ND ++ [digitChar (R % 100 / 10)]) : Nat) : Int), 1⟩, ?_, ?_⟩
        · rw [hS, if_neg hneg, List.nil_append]
          have h := parse_frac_plain ND [digitChar (R % 100 / 10)] hDdig hDne hFdig
            (by simp) hge (by simp) hcap2
          simpa using h
        · rw [hdval]
          exact crossEq_pos hneg hkey
    · -- fraction `xy` with `y ≠ 0`: nothing stripped
      have hy10 : R % 100 % 10 < 10 := Nat.mod_lt _ (by norm_num)
      have hx10 : R % 100 / 10 < 10 := by omega
      have hc1 : (digitChar (R % 100 / 10)).isDigit = true := digitChar_isDigit hx10
      have hc2 : (digitChar (R % 100 % 10)).isDigit = true := digitChar_isDigit hy10
      have hc2ne : (digitChar (R % 100 % 10) == '0') = false := by
        refine beq_eq_false_iff_ne.mpr ?_
        rw [ne_eq, digitChar_eq_zero hy10]
        omega
      have hstr : rstripL (rstripL (S ++ ND ++
          '.' :: [digitChar (R % 100 / 10), digitChar (R % 100 % 10)]) '0') '.' =
          S ++ (ND ++ '.' :: [digitChar (R % 100 / 10), digitChar (R % 100 % 10)]) := by
        have hsh : S ++ ND ++ '.' :: [digitChar (R % 100 / 10), digitChar (R % 100 % 10)] =
            (S ++ (ND ++ ['.', digitChar (R % 100 / 10)])) ++ [digitChar (R % 100 % 10)] := by
          simp
        rw [hsh, rstripL_noop hc2ne, rstripL_noop (digit_beq_false hc2 (by decide))]
        simp
      rw [hstr]
      have hdval : digsVal (ND ++ [digitChar (R % 100 / 10), digitChar (R % 100 % 10)]) = R := by
        rw [digsVal_append, hND, hdv, digsVal_pair, digitVal_digitChar hx10,
          digitVal_digitChar hy10]
        simp only [List.length_cons, List.length_singleton, List.length_nil]
        omega
      have hkey : R * 10 ^ e = n.natAbs * 10 ^ 2 := by
        rw [hRP]
        ring
      have hDdig : ∀ c ∈ ND, c.isDigit = true := by rw [hND]; exact hdd
      have hDne : ND ≠ [] := by rw [hND]; exact hdne
      have hFdig : ∀ c ∈ [digitChar (R % 100 / 10), digitChar (R % 100 % 10)],
          c.isDigit = true := by
        intro c hc
        rcases List.mem_cons.mp hc with rfl | hc
        · exact hc1
        · rw [List.mem_singleton.mp hc]
          exact hc2
      have hge : 1 ≤ digsVal (ND ++ [digitChar (R % 100 / 10), digitChar (R % 100 % 10)]) := by
        rw [hdval]; omega
      have hcap2 : digsVal (ND ++ [digitChar (R % 100 / 10), digitChar (R % 100 % 10)]) <
          floatCap * 10 ^ ([digitChar (R % 100 / 10), digitChar (R % 100 % 10)] : List Char).length := by
        rw [hdval]
        have : R < floatCap * 100 := hRcap
        simpa using this
      by_cases hneg : n < 0
      · refine ⟨⟨-((digsVal (ND ++ [digitChar (R % 100 / 10), digitChar (R % 100 % 10)]) : Nat) : Int), 2⟩, ?_, ?_⟩
        · rw [hS, if_pos hneg, List.singleton_append]
          have h := parse_frac_neg ND [digitChar (R % 100 / 10), digitChar (R % 100 % 10)]
            hDdig hDne hFdig (by simp) hge (by simp) hcap2
          simpa using h
        · rw [hdval]
          exact crossEq_neg hneg hkey
      · refine ⟨⟨((digsVal (ND ++ [digitChar (R % 100 / 10), digitChar (R % 100 % 10)]) : Nat) : Int), 2⟩, ?_, ?_⟩
        · rw [hS, if_neg hneg, List.nil_append]
          have h := parse_frac_plain ND [digitChar (R % 100 / 10), digitChar (R % 100 % 10)]
            hDdig hDne hFdig (by simp) hge (by simp) hcap2
          simpa using h
        · rw [hdval]
          exact crossEq_pos hneg hkey

/-- Round trip through `fmt2` for an exact decimal with at most two
fractional digits within float range. -/
theorem fmt2_parse (n : Int) (e : Nat) (hnum : n ≠ 0) (he : e ≤ 2)
    (hcap : n.natAbs < floatCap * 10 ^ e) :
    ∃ d2 : DecVal, pyFloat? (fmt2 ⟨n, e⟩) = some d2 ∧ crossEq d2 ⟨n, e⟩ := by
  have hP : 0 < (10 : Nat) ^ e := Nat.pos_pow_of_pos e (by norm_num)
  have hdvd : (10 : Nat) ^ e ∣ 100 := by
    have h2 : (10 : Nat) ^ e ∣ 10 ^ 2 := pow_dvd_pow 10 he
    simpa using h2
  obtain ⟨Q, hQ⟩ := hdvd
  have hA1 : 0 < n.natAbs := Int.natAbs_pos.mpr hnum
  have hQ1 : 0 < Q := by
    rcases Nat.eq_zero_or_pos Q with h0 | h
    · rw [h0, Nat.mul_zero] at hQ
      exact absurd hQ (by norm_num)
    · exact h
  have hm0 : n.natAbs * 100 % 10 ^ e = 0 := by
    rw [hQ, show n.natAbs * (10 ^ e * Q) = 10 ^ e * (n.natAbs * Q) from by ring]
    exact Nat.mul_mod_right _ _
  have hRdef : n.natAbs * 100 / 10 ^ e = n.natAbs * Q := by
    rw [hQ, show n.natAbs * (10 ^ e * Q) = 10 ^ e * (n.natAbs * Q) from by ring]
    exact Nat.mul_div_cancel_left _ hP
  have hfmt : fmt2 ⟨n, e⟩ = String.mk (rstripL (rstripL
      ((if n < 0 then ['-'] else []) ++ natDigits (n.natAbs * Q / 100) ++
        '.' :: [digitChar (n.natAbs * Q % 100 / 10), digitChar (n.natAbs * Q % 100 % 10)])
      '0') '.') := by
    unfold fmt2
    dsimp only
    rw [hm0]
    rw [if_pos (show 2 * 0 < 10 ^ e by simp only [Nat.mul_zero]; exact hP)]
    rw [hRdef]
  rw [hfmt]
  refine fmt2_parse_aux n e (n.natAbs * Q) ?_ ?_ ?_
  · rw [hQ]
    ring
  · exact Nat.mul_pos hA1 hQ1
  · have h1 : (n.natAbs * Q) * 10 ^ e < (floatCap * 100) * 10 ^ e := by
      rw [show (n.natAbs * Q) * 10 ^ e = n.natAbs * (10 ^ e * Q) from by ring, ← hQ]
      calc n.natAbs * 100 < (floatCap * 10 ^ e) * 100 :=
            (Nat.mul_lt_mul_right (by norm_num)).mpr hcap
        _ = (floatCap * 100) * 10 ^ e := by ring
    exact Nat.lt_of_mul_lt_mul_right h1

/-- Round trip through the integral/two-decimal rendering shared by the
normalizer's success branches. -/
theorem fmtNumeric_roundtrip (n : Int) (e : Nat) (hnum : n ≠ 0) (he : e ≤ 2)
    (hcap : n.natAbs < floatCap * 10 ^ e) :
    ∃ d2 : DecVal, pyFloat? (fmtNumeric ⟨n, e⟩) = some d2 ∧ crossEq d2 ⟨n, e⟩ := by
  unfold fmtNumeric
  by_cases hint : (decIsInt ⟨n, e⟩ && decAbsLt ⟨n, e⟩ (10 ^ 15)) = true
  · rw [if_pos hint]
    have hdvd : ((10 ^ e : Nat) : Int) ∣ n := by
      rw [Bool.and_eq_true] at hint
      have h1 := hint.1
      unfold decIsInt at h1
      exact Int.dvd_of_emod_eq_zero (by simpa using h1)
    obtain ⟨q, hq⟩ := hdvd
    have hq0 : q ≠ 0 := by
      intro h0
      rw [h0, Int.mul_zero] at hq
      exact hnum hq
    have hediv : Int.ediv n ((10 ^ e : Nat) : Int) = q := by
      rw [hq]
      exact Int.mul_ediv_cancel_left q (by positivity)
    rw [hediv]
    have hqabs : q.natAbs * 10 ^ e = n.natAbs := by
      have h3 : n.natAbs = (((10 ^ e : Nat) : Int) * q).natAbs := by rw [← hq]
      rw [h3, Int.natAbs_mul, Int.natAbs_ofNat]
      exact Nat.mul_comm _ _
    have hqcap : q.natAbs < floatCap := by
      have h2 : q.natAbs * 10 ^ e < floatCap * 10 ^ e := by
        rw [hqabs]
        exact hcap
      exact Nat.lt_of_mul_lt_mul_right h2
    obtain ⟨dv, ddig, dne⟩ := natDigits_spec q.natAbs
    have hq1 : 1 ≤ digsVal (natDigits q.natAbs) := by
      rw [dv]
      omega
    by_cases hneg : q < 0
    · refine ⟨⟨-(digsVal (natDigits q.natAbs) : Int), 0⟩, ?_, ?_⟩
      · rw [show intStr q = String.mk ('-' :: natDigits q.natAbs) from by
          unfold intStr
          rw [if_pos hneg, List.singleton_append]]
        exact parse_int_neg _ ddig dne hq1 (by rw [dv]; exact hqcap)
      · rw [dv]
        refine crossEq_neg ?_ ?_
        · have : 0 < ((10 ^ e : Nat) : Int) := by positivity
          nlinarith [hq]
        · rw [hqabs]
          simp
    · refine ⟨⟨(digsVal (natDigits q.natAbs) : Int), 0⟩, ?_, ?_⟩
      · rw [show intStr q = String.mk (natDigits q.natAbs) from by
          unfold intStr
          rw [if_neg hneg, List.nil_append]]
        exact parse_int_plain _ ddig dne hq1 (by rw [dv]; exact hqcap)
      · rw [dv]
        refine crossEq_pos ?_ ?_
        · have : 0 < ((10 ^ e : Nat) : Int) := by positivity
          nlinarith [hq]
        · rw [hqabs]
          simp
  · rw [if_neg hint]
    exact fmt2_parse n e hnum he hcap

/-- A rendered raw number is never the empty string (it contains a digit). -/
theorem render_beq_empty (t : RawNumber) (hWF : t.WF) : (t.render == "") = false := by
  apply beq_eq_false_iff_ne.mpr
  intro h
  obtain ⟨d0, D2, hd⟩ : ∃ d0 D2, t.digits = d0 :: D2 := by
    cases hcase : t.digits with
    | nil => exact absurd hcase hWF.2.1
    | cons a l => exact ⟨a, l, rfl⟩
  have hmem : d0 ∈ t.intPart := by
    have hm : d0 ∈ t.digits := by
      rw [hd]
      exact List.mem_cons_self d0 D2
    exact (List.mem_filter.mp hm).1
  have hmem2 : d0 ∈ t.render.data := by
    show d0 ∈ ((if t.neg then ['('] else []) ++ (if t.cur then ['$'] else []) ++
      t.intPart ++ (if t.frac.isEmpty then [] else '.' :: t.frac) ++
      (if t.neg then [')'] else []))
    simp only [List.mem_append]
    exact Or.inl (Or.inl (Or.inr hmem))
  rw [h] at hmem2
  rw [show ("" : String).data = ([] : List Char) from rfl] at hmem2
  exact absurd hmem2 (List.not_mem_nil d0)

/-- A lowercased string starting with a minus sign or a digit is none of
the null-like tokens (which start with `n` or `#`). -/
theorem token_head_ne (c0 : Char) (rest : List Char)
    (hc0 : c0 = '-' ∨ c0.isDigit = true) :
    nullTokens.contains (pyLower (String.mk (c0 :: rest))) = false := by
  have hlow : Char.toLower c0 ≠ 'n' ∧ Char.toLower c0 ≠ '#' := by
    rcases hc0 with rfl | hdig
    · exact ⟨by decide, by decide⟩
    · rw [digit_toLower hdig]
      exact ⟨digit_ne hdig (by decide), digit_ne hdig (by decide)⟩
  have hne : ∀ tok ∈ nullTokens, pyLower (String.mk (c0 :: rest)) ≠ tok := by
    intro tok htok heq
    have hdd : Char.toLower c0 :: rest.map Char.toLower = tok.data :=
      congrArg String.data heq
    simp only [nullTokens, List.mem_cons, List.not_mem_nil, or_false] at htok
    rcases htok with rfl | rfl | rfl | rfl | rfl
    · rw [show ("nan" : String).data = 'n' :: ['a', 'n'] from rfl] at hdd
      injection hdd with h1 h2
      exact hlow.1 h1
    · rw [show ("null" : String).data = 'n' :: ['u', 'l', 'l'] from rfl] at hdd
      injection hdd with h1 h2
      exact hlow.1 h1
    · rw [show ("none" : String).data = 'n' :: ['o', 'n', 'e'] from rfl] at hdd
      injection hdd with h1 h2
      exact hlow.1 h1
    · rw [show ("n/a" : String).data = 'n' :: ['/', 'a'] from rfl] at hdd
      injection hdd with h1 h2
      exact hlow.1 h1
    · rw [show ("#n/a" : String).data = '#' :: ['n', '/', 'a'] from rfl] at hdd
      injection hdd with h1 h2
      exact hlow.2 h1
  cases hcon : nullTokens.contains (pyLower (String.mk (c0 :: rest))) with
  | false => rfl
  | true => exact absurd (List.mem_of_elem_eq_true hcon) (fun hm => hne _ hm rfl)

/-- The scrubbed rendering of a wellformed raw number is not recognized
as a null-like token. -/
theorem cleaned_not_token (t : RawNumber) (hWF : t.WF) :
    nullTokens.contains (pyLower (String.mk (cleanChars t.render))) = false := by
  obtain ⟨d0, D2, hd⟩ : ∃ d0 D2, t.digits = d0 :: D2 := by
    cases hcase : t.digits with
    | nil => exact absurd hcase hWF.2.1
    | cons a l => exact ⟨a, l, rfl⟩
  have hd0 : d0.isDigit = true := by
    have hm : d0 ∈ t.digits := by
      rw [hd]
      exact List.mem_cons_self d0 D2
    exact (List.mem_filter.mp hm).2
  rw [cleanChars_render t hWF, hd]
  cases ht : t.neg
  · simp only [Bool.false_eq_true, if_false, List.nil_append, List.cons_append]
    exact token_head_ne d0 _ (Or.inr hd0)
  · rw [if_pos rfl, List.singleton_append]
    exact token_head_ne '-' _ (Or.inl rfl)

/-- Clause (a) of claim C2 as a lemma: blank input and null-like tokens
(after stripping, case-insensitive) normalize to the empty marker. -/
theorem clean_null_blank (s : String)
    (h : pyStrip s = "" ∨ nullTokens.contains (pyLower (pyStrip s)) = true) :
    clean_numeric_value s = "" := by
  unfold clean_numeric_value
  by_cases hs : (s == "") = true
  · rw [if_pos hs]
  · rw [if_neg hs]
    rcases h with h | h
    · have htr : trimL s.data = [] := congrArg String.data h
      have hcl : cleanChars s = [] := by
        unfold cleanChars
        rw [htr]
        rfl
      rw [hcl]
      decide
    · have hmem : pyLower (pyStrip s) ∈ nullTokens := List.mem_of_elem_eq_true h
      simp only [nullTokens, List.mem_cons, List.not_mem_nil, or_false] at hmem
      have hspec : ∀ c ∈ trimL s.data,
          c ≠ ',' ∧ c ≠ ' ' ∧ c ≠ '$' ∧ c ≠ '(' ∧ c ≠ ')' := by
        intro c hc
        have hcl : Char.toLower c ∈ (trimL s.data).map Char.toLower :=
          List.mem_map_of_mem Char.toLower hc
        rcases hmem with htok | htok | htok | htok | htok <;>
          (have hdd : (trimL s.data).map Char.toLower = _ := congrArg String.data htok
           rw [hdd] at hcl
           refine ⟨fun hq => ?_, fun hq => ?_, fun hq => ?_, fun hq => ?_, fun hq => ?_⟩ <;>
             (subst hq; revert hcl; decide))
      have hscrub : scrub (trimL s.data) = trimL s.data := by
        unfold scrub
        rw [filter_ne_of_all (fun c hc => (hspec c hc).1),
          filter_ne_of_all (fun c hc => (hspec c hc).2.1),
          filter_ne_of_all (fun c hc => (hspec c hc).2.2.1),
          map_paren_of_all (fun c hc => (hspec c hc).2.2.2.1),
          filter_ne_of_all (fun c hc => (hspec c hc).2.2.2.2)]
      have hcle : cleanChars s = trimL s.data := hscrub
      have h2 : nullTokens.contains (pyLower (String.mk (trimL s.data))) = true := h
      simp only [hcle]
      rw [h2, if_pos rfl]

/-- Clause (b) of claim C2 as a lemma: on the rendering of a wellformed
raw currency number within float range, the normalizer's output parses
back to the exact original quantity. -/
theorem clean_render_parses (t : RawNumber) (hWF : t.WF)
    (hcap : digsVal (t.digits ++ t.frac) < floatCap * 10 ^ t.frac.length) :
    ∃ d : DecVal, pyFloat? (clean_numeric_value t.render) = some d ∧ crossEq d t.val := by
  have hdig : ∀ c ∈ t.digits, c.isDigit = true := fun c hc => (List.mem_filter.mp hc).2
  have hdne := hWF.2.1
  have hfr := hWF.2.2.1
  have hflen := hWF.2.2.2
  have hbeq := render_beq_empty t hWF
  have htok := cleaned_not_token t hWF
  have hclean := cleanChars_render t hWF
  rw [hclean] at htok
  unfold clean_numeric_value
  simp only [hbeq, Bool.false_eq_true, if_false, hclean, htok]
  rw [← List.append_assoc]
  by_cases hN0 : digsVal (t.digits ++ t.frac) = 0
  · have hfc : 0 < floatCap := by decide
    have hpos : 0 < floatCap * 10 ^ t.frac.length :=
      Nat.mul_pos hfc (Nat.pos_pow_of_pos _ (by norm_num))
    rw [pyFloat_digits_core t.neg t.digits t.frac hdig hdne hfr,
      if_neg (by omega), if_pos (by rw [hN0]; simp)]
    show ∃ d, pyFloat? (fmtNumeric ⟨0, 0⟩) = some d ∧ crossEq d t.val
    refine ⟨⟨0, 0⟩, by decide, ?_⟩
    cases ht : t.neg <;> simp [crossEq, RawNumber.val, hN0, ht]
  · have hN1 : 1 ≤ digsVal (t.digits ++ t.frac) := Nat.one_le_iff_ne_zero.mpr hN0
    rw [pyFloat_digits_pos t.neg t.digits t.frac hdig hdne hfr hN1 hflen hcap]
    show ∃ d, pyFloat? (fmtNumeric ⟨if t.neg then -(digsVal (t.digits ++ t.frac) : Int)
      else (digsVal (t.digits ++ t.frac) : Int), t.frac.length⟩) = some d ∧ crossEq d t.val
    rw [show t.val = (⟨if t.neg then -(digsVal (t.digits ++ t.frac) : Int)
      else (digsVal (t.digits ++ t.frac) : Int), t.frac.length⟩ : DecVal) from rfl]
    refine fmtNumeric_roundtrip _ _ ?_ hflen ?_
    · cases ht : t.neg <;> simp <;> omega
    · cases ht : t.neg <;> simpa using hcap

/-! ## Claim theorems -/

/-- Claim C1, counterexample.  The claim asserts a positional strategy:
for source headers `["SKU","Name","Loc","4 - SOH","5 - Incoming","6 - Open","7 - Total"]`
the field `ProductCode` would be bound to source column 0 (value `"A1"`).
The code has no positional strategy: the name-pattern search finds no
`ProductCode` alias in these headers, the field's scalar default is
assigned to the still-empty frame, and the matched `SOH` column's Series
assignment reindexes the frame, clobbering it to `NaN` — the mapped cell
is `none`, not the column-0 value `"A1"`. -/
theorem C1_counterexample :
    (mappedColumns
        { cols := .flat ["SKU", "Name", "Loc", "4 - SOH", "5 - Incoming", "6 - Open", "7 - Total"],
          rows := [["A1", "Widget", "Sydney", "1,000", "5", "3", "1,008"]] }).map
        (fun c => (c.1, c.2.2)) =
      [("ProductCode", none), ("Product", none), ("Branch", none), ("SOH", some 3),
        ("Incoming NOT paid", some 4), ("Open Sales", some 5), ("Grand Total", some 6)] ∧
    (apply_cin7_column_mapping_fixed
        { cols := .flat ["SKU", "Name", "Loc", "4 - SOH", "5 - Incoming", "6 - Open", "7 - Total"],
          rows := [["A1", "Widget", "Sydney", "1,000", "5", "3", "1,008"]] }).rows =
      [[none, none, none, some "1000", some "5", some "3", some "1008", some "997"]] := by
  constructor <;> decide

/-- Claim C1, amended.  The column mapper has no positional strategy: it
always uses the name-pattern search (first source header whose lowercase
contains one of the field's alias substrings).  On the scenario headers,
`ProductCode`, `Product` and `Branch` match no alias — and, preceding the
first matched field, their columns end up `NaN`-filled — while the four
numeric fields bind by name to source columns 3, 4, 5 and 6. -/
theorem C1_amended :
    (∀ t : Table, mappedColumns t =
      cin7_column_mapping.mapIdx (fun i tc =>
        (tc.1, mapOneColumn t (firstMatchPos t) i tc.1 tc.2))) ∧
    ((mappedColumns
        { cols := .flat ["SKU", "Name", "Loc", "4 - SOH", "5 - Incoming", "6 - Open", "7 - Total"],
          rows := [["A1", "Widget", "Sydney", "1,000", "5", "3", "1,008"]] }).map
        (fun c => (c.1, c.2.1)) =
      [("ProductCode", [none]), ("Product", [none]), ("Branch", [none]),
        ("SOH", [some "1000"]), ("Incoming NOT paid", [some "5"]),
        ("Open Sales", [some "3"]), ("Grand Total", [some "1008"])]) := by
  refine ⟨fun t => rfl, by decide⟩

/-- Claim C8, counterexample.  The claim says every unmatched schema field
receives its schema default.  In the scenario table `Branch` has no
matching source column, yet its mapped column is `[NaN]` (`none`), not
`['N/A']`: the scalar default was assigned to the still-empty frame and
clobbered when the matched `SOH` column established the index.  And on a
table where no field matches at all, the mapped frame has zero rows — no
row of defaults exists at all. -/
theorem C8_counterexample :
    findSourceIdx ["SKU", "Name", "Loc", "4 - SOH", "5 - Incoming", "6 - Open", "7 - Total"]
        ["branch", "location", "warehouse"] = none ∧
    mapOneColumn
        { cols := .flat ["SKU", "Name", "Loc", "4 - SOH", "5 - Incoming", "6 - Open", "7 - Total"],
          rows := [["A1", "Widget", "Sydney", "1,000", "5", "3", "1,008"]] }
        (firstMatchPos
          { cols := .flat ["SKU", "Name", "Loc", "4 - SOH", "5 - Incoming", "6 - Open", "7 - Total"],
            rows := [["A1", "Widget", "Sydney", "1,000", "5", "3", "1,008"]] })
        2 "Branch" ["branch", "location", "warehouse"] = ([none], none) ∧
    ([none] : List (Option String)) ≠ [some "N/A"] ∧
    (apply_cin7_column_mapping_fixed { cols := .flat ["X"], rows := [["1"]] }).rows = [] := by
  refine ⟨by decide, by decide, by decide, by decide⟩

/-- Claim C8, amended.  An unmatched schema field receives its schema
default (`''` numeric / `'N/A'` text) exactly when some earlier field (in
schema order) matched; when the first match comes later, the default is
`NaN`-clobbered by the reindex, and when no field matches at all the
mapped frame has zero rows.  In every case the mapper is total — all
eight output columns are produced and nothing raises. -/
theorem C8_amended (t : Table) (target : String) (patterns : List String) (pos : Nat)
    (hfind : findSourceIdx t.headers patterns = none) :
    (∀ k, firstMatchPos t = some k → pos < k →
      mapOneColumn t (firstMatchPos t) pos target patterns =
        (List.replicate t.rows.length none, none)) ∧
    (∀ k, firstMatchPos t = some k → k ≤ pos →
      mapOneColumn t (firstMatchPos t) pos target patterns =
        (List.replicate t.rows.length
          (some (if numericDefaultFields.contains target then "" else "N/A")), none)) ∧
    (firstMatchPos t = none →
      mapOneColumn t (firstMatchPos t) pos target patterns = ([], none) ∧
      (apply_cin7_column_mapping_fixed t).rows = []) ∧
    (apply_cin7_column_mapping_fixed t).cols =
      ["ProductCode", "Product", "Branch", "SOH", "Incoming NOT paid", "Open Sales",
        "Grand Total", "Available"] := by
  refine ⟨?_, ?_, ?_, ?_⟩
  · intro k hk hlt
    simp only [mapOneColumn, hfind, hk]
    rw [if_pos hlt]
  · intro k hk hge
    simp only [mapOneColumn, hfind, hk]
    rw [if_neg (show ¬pos < k from by omega)]
  · intro hnone
    constructor
    · simp only [mapOneColumn, hfind, hnone]
    · simp [apply_cin7_column_mapping_fixed, hnone]
  · rfl

/-- Witness for C8: `Branch` precedes the sole matched field `SOH` in
`{cols := ["4 - SOH"]}` and is `NaN`-filled; `Open Sales` follows it and
gets its `''` default; the all-unmatched table `{cols := ["X"]}` maps to
zero rows with the full header list. -/
theorem C8_amended_witness :
    mapOneColumn { cols := .flat ["4 - SOH"], rows := [["2"]] }
        (firstMatchPos { cols := .flat ["4 - SOH"], rows := [["2"]] }) 2 "Branch"
        ["branch", "location", "warehouse"] = ([none], none) ∧
    mapOneColumn { cols := .flat ["4 - SOH"], rows := [["2"]] }
        (firstMatchPos { cols := .flat ["4 - SOH"], rows := [["2"]] }) 5 "Open Sales"
        ["open sales", "6 -", "allocated", "open_sales_stock qty"] = ([some ""], none) ∧
    (apply_cin7_column_mapping_fixed { cols := .flat ["X"], rows := [["1"]] }).rows = [] ∧
    (apply_cin7_column_mapping_fixed { cols := .flat ["X"], rows := [["1"]] }).cols =
      ["ProductCode", "Product", "Branch", "SOH", "Incoming NOT paid", "Open Sales",
        "Grand Total", "Available"] := by
  refine ⟨?_, ?_, ?_, ?_⟩
  · exact (C8_amended { cols := .flat ["4 - SOH"], rows := [["2"]] } "Branch"
      ["branch", "location", "warehouse"] 2 (by decide)).1 3 (by decide) (by decide)
  · exact (C8_amended { cols := .flat ["4 - SOH"], rows := [["2"]] } "Open Sales"
      ["open sales", "6 -", "allocated", "open_sales_stock qty"] 5 (by decide)).2.1 3
      (by decide) (by decide)
  · exact ((C8_amended { cols := .flat ["X"], rows := [["1"]] } "ProductCode"
      ["productcode", "product_code", "product code"] 0 (by decide)).2.2.1 (by decide)).2
  · exact (C8_amended { cols := .flat ["X"], rows := [["1"]] } "ProductCode"
      ["productcode", "product_code", "product code"] 0 (by decide)).2.2.2

/-- Claim C10: in non-verbatim mode the row filter runs only when some
column name contains a `ProductCode` alias; when no column matches, the
filter leaves the table untouched, so summary/total rows survive. -/
theorem C10_no_keycol_no_filter (t : Table)
    (h : ∀ hd ∈ t.headers, productCodeAliases.any (fun p => strContains (pyLower hd) p) = false) :
    rowFilterStep false t = t := by
  unfold rowFilterStep findProductCodeCol
  rw [List.findIdx?_eq_none_iff.mpr h]
  rfl

/-- Witness for C10: a table without any `ProductCode`-alias column keeps
its `Grand Total` row even with verbatim mode off. -/
theorem C10_no_keycol_no_filter_witness :
    rowFilterStep false
        { cols := .flat ["SKU", "Qty"], rows := [["Grand Total", "9"], ["A1", "5"]] } =
      { cols := .flat ["SKU", "Qty"], rows := [["Grand Total", "9"], ["A1", "5"]] } :=
  C10_no_keycol_no_filter _ (by decide)

/-- Claim C3: in verbatim mode the filter drops nothing; in non-verbatim
mode (with the key column found) it drops exactly the rows whose key
value is empty, equals `'nan'`, or case-insensitively contains
`'grand total'`, `'total'` or `'productcode'`, leaving all other rows
unchanged and in order. -/
theorem C3_row_filter (t : Table) :
    rowFilterStep true t = t ∧
    ∀ j, findProductCodeCol t.headers = some j →
      rowFilterStep false t =
        { t with rows := t.rows.filter (fun r => !dropRowSpec (r.getD j "")) } := by
  constructor
  · rfl
  · intro j hj
    unfold rowFilterStep
    rw [hj]
    simp only [Bool.false_eq_true, if_false]
    congr 1
    exact List.filter_congr (fun r _ => keepRow_eq_not_dropRowSpec (r.getD j ""))

/-- Witness for C3 on a concrete table: empty, `'nan'` and `Total`-bearing
keys are dropped; `'NaN'` (different case, no excluded substring) stays. -/
theorem C3_row_filter_witness :
    rowFilterStep true
        { cols := .flat ["ProductCode", "Branch"],
          rows := [["A1", "S"], ["", "x"], ["Total xyz", "y"], ["nan", "z"], ["NaN", "w"]] } =
      { cols := .flat ["ProductCode", "Branch"],
        rows := [["A1", "S"], ["", "x"], ["Total xyz", "y"], ["nan", "z"], ["NaN", "w"]] } ∧
    rowFilterStep false
        { cols := .flat ["ProductCode", "Branch"],
          rows := [["A1", "S"], ["", "x"], ["Total xyz", "y"], ["nan", "z"], ["NaN", "w"]] } =
      { cols := .flat ["ProductCode", "Branch"],
        rows := [["A1", "S"], ["NaN", "w"]] } := by
  refine ⟨(C3_row_filter _).1, ?_⟩
  have h := (C3_row_filter
    { cols := .flat ["ProductCode", "Branch"],
      rows := [["A1", "S"], ["", "x"], ["Total xyz", "y"], ["nan", "z"], ["NaN", "w"]] }).2
    0 (by decide)
  rw [h]
  decide

/-- Claim C9: processing is idempotent.  Rerunning
`process_cin7_excel_data_fixed` on the stored analysis it just updated
(the only in-place mutation is the header flattening, which is idempotent)
returns the same processed table. -/
theorem C9_process_idempotent (cfg : ProcConfig) (fa : FileAnalysis) :
    (process_cin7_excel_data_fixed cfg (process_cin7_excel_data_fixed cfg fa).1).2 =
      (process_cin7_excel_data_fixed cfg fa).2 := by
  unfold process_cin7_excel_data_fixed chooseWorking
  cases hv : cfg.verbatim <;> cases hm : fa.df_multi <;>
    simp [hv, hm, flattenCols_idem]

/-- Claim C7, counterexample.  The claim says a cell is emitted only when
the value is not a null-like token; but `'N/A'` is one of the pipeline's
null-like tokens (`nullTokens`, case-insensitive) and `upload` still
emits a cell for it — its exclusion list is only the exact strings
`'nan'`, `'None'`, `'null'`. -/
theorem C7_counterexample :
    buildRow [("Product", 5)] ["Product"] ["N/A"] = [(5, "N/A")] ∧
    nullTokens.contains (pyLower "N/A") = true := by
  constructor <;> decide

/-- Claim C7, amended: a cell is emitted exactly for the columns that
resolve in the remote column map and whose stripped value is non-empty
and none of the exact strings `'nan'`, `'None'`, `'null'` (numeric
columns re-cleaned at emission); rows with zero cells are dropped
silently. -/
theorem C7_amended :
    (∀ (colMap : List (String × Nat)) (headers : List String) (row : List String),
      buildRow colMap headers row =
        (List.zip headers row).filterMap (fun cv =>
          if (dictLookup colMap cv.1).isSome && pyStrip cv.2 != "" &&
              !(pyStrip cv.2 == "nan" || pyStrip cv.2 == "None" || pyStrip cv.2 == "null") then
            some ((dictLookup colMap cv.1).getD 0,
              if numeric_columns.contains cv.1 then clean_numeric_value (pyStrip cv.2)
              else pyStrip cv.2)
          else none)) ∧
    (∀ (colMap : List (String × Nat)) (headers : List String) (batch : List (List String)),
      rowsToAdd colMap headers batch =
        (batch.map (buildRow colMap headers)).filter (fun cells => !cells.isEmpty)) := by
  constructor
  · intro colMap headers row
    apply List.filterMap_congr
    intro cv _
    cases h : dictLookup colMap cv.1 with
    | none => simp [buildRow, h]
    | some cid =>
      simp only [buildRow, h, Option.isSome_some, Option.getD_some, Bool.true_and]
      have hc : (["nan", "None", "null"].contains (pyStrip cv.2)) =
          (pyStrip cv.2 == "nan" || pyStrip cv.2 == "None" || pyStrip cv.2 == "null") := by
        cases h1 : pyStrip cv.2 == "nan" <;> cases h2 : pyStrip cv.2 == "None" <;>
          cases h3 : pyStrip cv.2 == "null" <;>
          simp [List.contains, List.elem, h1, h2, h3]
      rw [hc]
  · intro colMap headers batch
    exact filterMap_isEmpty_eq_filter _ _

/-! ## Helper lemmas for the upload/clear scenarios -/

theorem rowsToAdd_length (colMap : List (String × Nat)) (headers : List String)
    (batch : List (List String)) (h : ∀ r ∈ batch, buildRow colMap headers r ≠ []) :
    (rowsToAdd colMap headers batch).length = batch.length := by
  induction batch with
  | nil => rfl
  | cons a l ih =>
    have ha : (buildRow colMap headers a).isEmpty = false := by
      cases hb : buildRow colMap headers a with
      | nil => exact absurd hb (h a (List.mem_cons_self a l))
      | cons x xs => rfl
    simp only [rowsToAdd, List.filterMap_cons, ha, if_false]
    simp only [List.length_cons]
    rw [← ih (fun r hr => h r (List.mem_cons_of_mem a hr))]
    rfl

theorem deletesOf_nil : deletesOf [] = [] := rfl

theorem deletesOf_append (a b : List Ev) :
    deletesOf (a ++ b) = deletesOf a ++ deletesOf b := List.filterMap_append _ _ _

theorem deletesOf_poll (v : Bool) (l : List Ev) :
    deletesOf (Ev.poll v :: l) = deletesOf l := rfl

theorem deletesOf_sleepRetry (m : Nat) (l : List Ev) :
    deletesOf (Ev.sleepRetry m :: l) = deletesOf l := rfl

theorem deletesOf_sleepRate (l : List Ev) :
    deletesOf (Ev.sleepRate :: l) = deletesOf l := rfl

theorem deletesOf_delete (ids : List Nat) (l : List Ev) :
    deletesOf (Ev.deleteRows ids :: l) = ids :: deletesOf l := rfl

theorem deletesOf_rateEv (b : Bool) :
    deletesOf (if b then [] else [Ev.sleepRate]) = [] := by cases b <;> rfl

theorem appendsOf_nil : appendsOf [] = [] := rfl

theorem appendsOf_append (a b : List Ev) :
    appendsOf (a ++ b) = appendsOf a ++ appendsOf b := List.filterMap_append _ _ _

theorem appendsOf_poll (v : Bool) (l : List Ev) :
    appendsOf (Ev.poll v :: l) = appendsOf l := rfl

theorem appendsOf_sleepRetry (m : Nat) (l : List Ev) :
    appendsOf (Ev.sleepRetry m :: l) = appendsOf l := rfl

theorem appendsOf_sleepRate (l : List Ev) :
    appendsOf (Ev.sleepRate :: l) = appendsOf l := rfl

theorem appendsOf_app (rs : List (List (Nat × String))) (l : List Ev) :
    appendsOf (Ev.append rs :: l) = rs :: appendsOf l := rfl

theorem clearAttemptLoop_ok (ids : List Nat) (k tries : Nat) :
    clearAttemptLoop (fun _ => false) ids (k + 1) tries =
      ([Ev.deleteRows ids], tries + 1, true) := by
  simp [clearAttemptLoop]

theorem clearAttemptLoop_allFail (ids : List Nat) :
    ∀ n tries, (clearAttemptLoop (fun _ => true) ids (n + 1) tries).2.2 = false ∧
      deletesOf (clearAttemptLoop (fun _ => true) ids (n + 1) tries).1 =
        List.replicate (n + 1) ids := by
  intro n
  induction n with
  | zero => intro tries; exact ⟨rfl, rfl⟩
  | succ m ih =>
    intro tries
    have hm' : (m + 1 == 0) = false := by simp
    simp only [clearAttemptLoop, if_true, hm', Bool.false_eq_true, if_false]
    refine ⟨(ih (tries + 1)).1, ?_⟩
    rw [deletesOf_delete, deletesOf_sleepRetry, List.replicate_succ]
    exact congrArg _ (ih (tries + 1)).2

theorem clearAttemptLoop_deletes_sub (fails : Nat → Bool) (ids : List Nat) :
    ∀ n tries d, d ∈ deletesOf (clearAttemptLoop fails ids n tries).1 → d = ids := by
  intro n
  induction n with
  | zero => intro tries d hd; simp [clearAttemptLoop, deletesOf] at hd
  | succ m ih =>
    intro tries d hd
    cases hf : fails tries with
    | true =>
      cases hm : (m == 0) with
      | true =>
        simp only [clearAttemptLoop, hf, hm, if_true] at hd
        rw [deletesOf_delete, deletesOf_nil] at hd
        simpa using hd
      | false =>
        simp only [clearAttemptLoop, hf, hm, if_true, Bool.false_eq_true, if_false] at hd
        rw [deletesOf_delete, deletesOf_sleepRetry] at hd
        rcases List.mem_cons.mp hd with h | h
        · exact h
        · exact ih (tries + 1) d h
    | false =>
      simp only [clearAttemptLoop, hf, Bool.false_eq_true, if_false] at hd
      rw [deletesOf_delete, deletesOf_nil] at hd
      simpa using hd

theorem clearGo_deletes_bound (cancel fails : Nat → Bool) (mr : Nat) (ids : List Nat) :
    ∀ (bs : List Nat) (st : Nat × Nat) (d : List Nat),
      d ∈ deletesOf (clearGo cancel fails mr ids bs st).1 → d.length ≤ 400 := by
  intro bs
  induction bs with
  | nil => intro st d hd; simp [clearGo, deletesOf] at hd
  | cons b rest ih =>
    intro st d hd
    obtain ⟨polls, tries⟩ := st
    cases hc : cancel polls with
    | true =>
      simp only [clearGo, hc, if_true] at hd
      rw [deletesOf_poll, deletesOf_nil] at hd
      exact absurd hd (List.not_mem_nil d)
    | false =>
      cases hok : (clearAttemptLoop fails ((ids.drop (b * 400)).take 400) mr tries).2.2 with
      | true =>
        simp only [clearGo, hc, Bool.false_eq_true, if_false, hok, if_true] at hd
        rw [deletesOf_append, deletesOf_append, deletesOf_poll, deletesOf_rateEv,
          List.append_nil] at hd
        rcases List.mem_append.mp hd with h | h
        · have := clearAttemptLoop_deletes_sub fails _ mr tries d h
          subst this
          exact List.length_take_le _ _
        · exact ih _ d h
      | false =>
        simp only [clearGo, hc, Bool.false_eq_true, if_false, hok] at hd
        rw [deletesOf_poll] at hd
        have := clearAttemptLoop_deletes_sub fails _ mr tries d hd
        subst this
        exact List.length_take_le _ _

/-- Claim C4: with `batch_size = 50` on a 130-row table (every row
building at least one cell) the upload issues exactly 3 append calls of
50, 50 and 30 rows, in table order, with a `rate_limit_delay` pause after
batches 1 and 2 only. -/
theorem C4_upload_batches (cfg : UploadConfig) (colMap : List (String × Nat))
    (headers : List String) (rows : List (List String))
    (hbs : cfg.batch_size = 50) (hmr : 1 ≤ cfg.max_retries) (hlen : rows.length = 130)
    (hne : ∀ r ∈ rows, buildRow colMap headers r ≠ []) :
    (upload_data_enhanced cfg (fun _ => false) (fun _ => false) colMap headers rows).1 =
      [Ev.poll false, Ev.poll false,
        Ev.append (rowsToAdd colMap headers (rows.take 50)), Ev.sleepRate,
        Ev.poll false, Ev.poll false,
        Ev.append (rowsToAdd colMap headers ((rows.drop 50).take 50)), Ev.sleepRate,
        Ev.poll false, Ev.poll false,
        Ev.append (rowsToAdd colMap headers (rows.drop 100))] ∧
    (rowsToAdd colMap headers (rows.take 50)).length = 50 ∧
    (rowsToAdd colMap headers ((rows.drop 50).take 50)).length = 50 ∧
    (rowsToAdd colMap headers (rows.drop 100)).length = 30 ∧
    (upload_data_enhanced cfg (fun _ => false) (fun _ => false) colMap headers rows).2.1 = true := by
  obtain ⟨k, hk⟩ : ∃ k, cfg.max_retries = k + 1 := ⟨cfg.max_retries - 1, by omega⟩
  have hdrop : (rows.drop 100).take 50 = rows.drop 100 :=
    List.take_of_length_le (by simp [hlen])
  have hslices : batchSlices cfg.batch_size rows =
      [rows.take 50, (rows.drop 50).take 50, rows.drop 100] := by
    unfold batchSlices
    rw [hbs, hlen]
    norm_num
    rw [show List.range 3 = [0, 1, 2] from by decide]
    simp [hdrop]
  have hlen1 : (rowsToAdd colMap headers (rows.take 50)).length = 50 := by
    rw [rowsToAdd_length colMap headers _
      (fun r hr => hne r (List.take_subset 50 rows hr))]
    simp [hlen]
  have hlen2 : (rowsToAdd colMap headers ((rows.drop 50).take 50)).length = 50 := by
    rw [rowsToAdd_length colMap headers _
      (fun r hr => hne r (List.drop_subset 50 rows (List.take_subset 50 _ hr)))]
    simp [hlen]
  have hlen3 : (rowsToAdd colMap headers (rows.drop 100)).length = 30 := by
    rw [rowsToAdd_length colMap headers _
      (fun r hr => hne r (List.drop_subset 100 rows hr))]
    simp [hlen]
  refine ⟨?_, hlen1, hlen2, hlen3, ?_⟩ <;>
    simp [upload_data_enhanced, hslices, hk, uploadGo, attemptLoop]

/-- Witness for C4: a concrete 130-row table uploads as 50 + 50 + 30. -/
theorem C4_upload_batches_witness :
    (upload_data_enhanced ⟨50, 3, 2, 1⟩ (fun _ => false) (fun _ => false) [("A", 0)] ["A"]
        (List.replicate 130 ["x"])).1 =
      [Ev.poll false, Ev.poll false,
        Ev.append (rowsToAdd [("A", 0)] ["A"] ((List.replicate 130 ["x"]).take 50)), Ev.sleepRate,
        Ev.poll false, Ev.poll false,
        Ev.append (rowsToAdd [("A", 0)] ["A"] (((List.replicate 130 ["x"]).drop 50).take 50)),
        Ev.sleepRate, Ev.poll false, Ev.poll false,
        Ev.append (rowsToAdd [("A", 0)] ["A"] ((List.replicate 130 ["x"]).drop 100))] ∧
    (rowsToAdd [("A", 0)] ["A"] ((List.replicate 130 ["x"]).take 50)).length = 50 := by
  have h := C4_upload_batches ⟨50, 3, 2, 1⟩ [("A", 0)] ["A"] (List.replicate 130 ["x"])
    rfl (by norm_num) (by simp)
    (fun r hr => by rw [List.eq_of_mem_replicate hr]; decide)
  exact ⟨h.1, h.2.1⟩

/-- Claim C6: if cancellation is requested after batch 1 completes and
before batch 2 starts, exactly the first batch is appended, no further
append call is made, and the outcome is `Cancelled`, never `Failed`.  The
trace also exhibits where the flag is polled: before each batch and at
the top of each retry attempt. -/
theorem C6_cancel_between_batches (cfg : UploadConfig) (colMap : List (String × Nat))
    (headers : List String) (rows : List (List String))
    (hmr : 1 ≤ cfg.max_retries) (hbs : 1 ≤ cfg.batch_size)
    (hlen : cfg.batch_size < rows.length) :
    (upload_data_enhanced cfg (fun i => decide (2 ≤ i)) (fun _ => false) colMap headers rows).1 =
      [Ev.poll false, Ev.poll false,
        Ev.append (rowsToAdd colMap headers (rows.take cfg.batch_size)), Ev.sleepRate,
        Ev.poll true] ∧
    appendsOf (upload_data_enhanced cfg (fun i => decide (2 ≤ i)) (fun _ => false)
        colMap headers rows).1 =
      [rowsToAdd colMap headers (rows.take cfg.batch_size)] ∧
    (upload_data_enhanced cfg (fun i => decide (2 ≤ i)) (fun _ => false)
        colMap headers rows).2.1 = false ∧
    classify
      (upload_data_enhanced cfg (fun i => decide (2 ≤ i)) (fun _ => false)
        colMap headers rows).2.1
      (decide (2 ≤ (upload_data_enhanced cfg (fun i => decide (2 ≤ i)) (fun _ => false)
        colMap headers rows).2.2)) = Outcome.cancelled := by
  obtain ⟨k, hk⟩ : ∃ k, cfg.max_retries = k + 1 := ⟨cfg.max_retries - 1, by omega⟩
  obtain ⟨m, hm⟩ : ∃ m, (rows.length + cfg.batch_size - 1) / cfg.batch_size = 2 + m := by
    refine ⟨(rows.length + cfg.batch_size - 1) / cfg.batch_size - 2, ?_⟩
    have : 2 ≤ (rows.length + cfg.batch_size - 1) / cfg.batch_size :=
      (Nat.le_div_iff_mul_le (by omega)).mpr (by omega)
    omega
  have hslices : batchSlices cfg.batch_size rows =
      rows.take cfg.batch_size ::
        (rows.drop cfg.batch_size).take cfg.batch_size ::
        (List.range m).map (fun b => (rows.drop ((2 + b) * cfg.batch_size)).take cfg.batch_size) := by
    unfold batchSlices
    rw [hm, List.range_add]
    rw [show List.range 2 = [0, 1] from by decide]
    simp
  refine ⟨?_, ?_, ?_, ?_⟩ <;>
    simp [upload_data_enhanced, hslices, hk, uploadGo, attemptLoop, appendsOf, classify]

/-- Witness for C6: three 1-row batches, cancellation set after batch 1. -/
theorem C6_cancel_between_batches_witness :
    (upload_data_enhanced ⟨1, 3, 2, 1⟩ (fun i => decide (2 ≤ i)) (fun _ => false) [("A", 0)] ["A"]
        [["x"], ["y"], ["z"]]).1 =
      [Ev.poll false, Ev.poll false,
        Ev.append (rowsToAdd [("A", 0)] ["A"] ([["x"], ["y"], ["z"]].take 1)), Ev.sleepRate,
        Ev.poll true] ∧
    classify
      (upload_data_enhanced ⟨1, 3, 2, 1⟩ (fun i => decide (2 ≤ i)) (fun _ => false) [("A", 0)]
        ["A"] [["x"], ["y"], ["z"]]).2.1
      (decide (2 ≤ (upload_data_enhanced ⟨1, 3, 2, 1⟩ (fun i => decide (2 ≤ i)) (fun _ => false)
        [("A", 0)] ["A"] [["x"], ["y"], ["z"]]).2.2)) = Outcome.cancelled := by
  have h := C6_cancel_between_batches ⟨1, 3, 2, 1⟩ [("A", 0)] ["A"] [["x"], ["y"], ["z"]]
    (by norm_num) (by norm_num) (by norm_num)
  exact ⟨h.1, h.2.2.2⟩

/-- Claim C5: `clearAll` deletes in sub-batches of the fixed platform
size 400 regardless of the configured `batch_size`; on 850 rows it issues
exactly 3 delete calls of 400, 400 and 50 ids in order; with persistent
failures a sub-batch is attempted exactly `max_retries` times and then
the error propagates; and no delete call ever exceeds 400 ids. -/
theorem C5_clear_batches :
    (∀ (cfg : UploadConfig) (ids : List Nat), 1 ≤ cfg.max_retries → ids.length = 850 →
      clear_smartsheet_data_enhanced cfg (fun _ => false) (fun _ => false) ids =
        ([Ev.poll false, Ev.deleteRows (ids.take 400), Ev.sleepRate,
          Ev.poll false, Ev.deleteRows ((ids.drop 400).take 400), Ev.sleepRate,
          Ev.poll false, Ev.deleteRows (ids.drop 800)], ClearRes.done) ∧
      (ids.take 400).length = 400 ∧ ((ids.drop 400).take 400).length = 400 ∧
      (ids.drop 800).length = 50) ∧
    (∀ (cfg : UploadConfig) (ids : List Nat), ids ≠ [] → 1 ≤ cfg.max_retries →
      deletesOf (clear_smartsheet_data_enhanced cfg (fun _ => false) (fun _ => true) ids).1 =
        List.replicate cfg.max_retries (ids.take 400) ∧
      (clear_smartsheet_data_enhanced cfg (fun _ => false) (fun _ => true) ids).2 =
        ClearRes.raised) ∧
    (∀ (cfg : UploadConfig) (cancel fails : Nat → Bool) (ids : List Nat),
      ∀ d ∈ deletesOf (clear_smartsheet_data_enhanced cfg cancel fails ids).1,
        d.length ≤ 400) := by
  refine ⟨?_, ?_, ?_⟩
  · intro cfg ids hmr hlen
    obtain ⟨k, hk⟩ : ∃ k, cfg.max_retries = k + 1 := ⟨cfg.max_retries - 1, by omega⟩
    have hne : ids.isEmpty = false := by
      cases ids with
      | nil => simp at hlen
      | cons a l => rfl
    have hdrop : (ids.drop 800).take 400 = ids.drop 800 :=
      List.take_of_length_le (by simp [hlen])
    refine ⟨?_, by simp [hlen], by simp [hlen], by simp [hlen]⟩
    unfold clear_smartsheet_data_enhanced
    rw [hne, hlen, hk]
    norm_num
    rw [show List.range 3 = [0, 1, 2] from by decide]
    simp [clearGo, clearAttemptLoop_ok, hdrop]
  · intro cfg ids hne hmr
    obtain ⟨k, hk⟩ : ∃ k, cfg.max_retries = k + 1 := ⟨cfg.max_retries - 1, by omega⟩
    have hemp : ids.isEmpty = false := by
      cases ids with
      | nil => exact absurd rfl hne
      | cons a l => rfl
    have htot : ∃ t, (ids.length + 400 - 1) / 400 = t + 1 := by
      refine ⟨(ids.length + 400 - 1) / 400 - 1, ?_⟩
      have hpos : 1 ≤ ids.length := by
        cases ids with
        | nil => exact absurd rfl hne
        | cons a l => simp
      have : 1 ≤ (ids.length + 400 - 1) / 400 :=
        (Nat.le_div_iff_mul_le (by omega)).mpr (by omega)
      omega
    obtain ⟨t, ht⟩ := htot
    unfold clear_smartsheet_data_enhanced
    simp only [hemp, Bool.false_eq_true, if_false]
    rw [ht, List.range_succ_eq_map, hk]
    have hfail := clearAttemptLoop_allFail (ids.take 400) k 0
    constructor
    · simp only [clearGo, Bool.false_eq_true, if_false, Nat.zero_mul, List.drop_zero]
      rw [hfail.1]
      simp only [Bool.false_eq_true, if_false]
      rw [deletesOf_poll]
      exact hfail.2
    · simp only [clearGo, Bool.false_eq_true, if_false, Nat.zero_mul, List.drop_zero]
      rw [hfail.1]
      simp
  · intro cfg cancel fails ids d hd
    unfold clear_smartsheet_data_enhanced at hd
    cases hemp : ids.isEmpty with
    | true => rw [hemp] at hd; simp [deletesOf] at hd
    | false =>
      rw [hemp] at hd
      simp only [Bool.false_eq_true, if_false] at hd
      exact clearGo_deletes_bound cancel fails cfg.max_retries ids _ _ d hd

/-- Witness for C5 at a concrete 850-row sheet and configuration. -/
theorem C5_clear_batches_witness :
    clear_smartsheet_data_enhanced ⟨20, 3, 2, 1⟩ (fun _ => false) (fun _ => false)
        (List.range 850) =
      ([Ev.poll false, Ev.deleteRows ((List.range 850).take 400), Ev.sleepRate,
        Ev.poll false, Ev.deleteRows (((List.range 850).drop 400).take 400), Ev.sleepRate,
        Ev.poll false, Ev.deleteRows ((List.range 850).drop 800)], ClearRes.done) ∧
    deletesOf (clear_smartsheet_data_enhanced ⟨20, 3, 2, 1⟩ (fun _ => false) (fun _ => true)
        (List.range 850)).1 =
      List.replicate 3 ((List.range 850).take 400) := by
  have h1 := (C5_clear_batches.1 ⟨20, 3, 2, 1⟩ (List.range 850) (by norm_num) (by simp)).1
  have h2 := (C5_clear_batches.2.1 ⟨20, 3, 2, 1⟩ (List.range 850) (by simp) (by norm_num)).1
  exact ⟨h1, h2⟩

/-- Claim C2, counterexample.  The claim asserts that for every numeric
input with thousands-separator commas the normalizer returns a string
that parses back to the original quantity.  The code formats every
non-integral parsed value with `%.2f`, so the three-decimal input
`"1,244.567"` (the rendering of the raw number 1244.567) is rounded to
`"1244.57"`, which parses to 1244.57 ≠ 1244.567. -/
theorem C2_counterexample :
    clean_numeric_value "1,244.567" = "1244.57" ∧
    RawNumber.render ⟨false, false, ['1', ',', '2', '4', '4'], ['5', '6', '7']⟩ =
      "1,244.567" ∧
    RawNumber.val ⟨false, false, ['1', ',', '2', '4', '4'], ['5', '6', '7']⟩ =
      ⟨1244567, 3⟩ ∧
    pyFloat? "1244.57" = some ⟨124457, 2⟩ ∧
    ¬crossEq ⟨124457, 2⟩ ⟨1244567, 3⟩ :=
  ⟨by decide, by decide, by decide, by decide, by decide⟩

/-- Claim C2, amended.  The normalizer returns the empty marker when the
stripped input is blank or (case-insensitively) one of the null-like
tokens `nan`, `null`, `none`, `n/a`, `#n/a`; for the rendering of any
wellformed raw currency number — optional parenthesized negative,
optional dollar sign, digits with optional comma separators, **at most
two** fractional digits — whose digit value stays below `10 ^ 13`, the
output parses back to the exact original quantity; and
`normalize("$1,244.00") = "1244"`, `normalize("(50)") = "-50"`,
`normalize("N/A") = ""`.  (Inputs with more than two fractional digits
are excluded: the `%.2f` formatting rounds them, see the counterexample.
The `10 ^ 13` magnitude bound keeps the 53-bit double faithful to the
exact decimal: integers parse exactly and the double of a two-decimal
value is within `2 ^ (-9) < 0.005` of it, so the program prints the same
digits as the exact model.) -/
theorem C2_amended :
    (∀ s : String,
        pyStrip s = "" ∨ nullTokens.contains (pyLower (pyStrip s)) = true →
        clean_numeric_value s = "") ∧
    (∀ t : RawNumber, t.WF →
        digsVal (t.digits ++ t.frac) < 10 ^ 13 →
        ∃ d : DecVal, pyFloat? (clean_numeric_value t.render) = some d ∧
          crossEq d t.val) ∧
    clean_numeric_value "$1,244.00" = "1244" ∧
    clean_numeric_value "(50)" = "-50" ∧
    clean_numeric_value "N/A" = "" :=
  ⟨clean_null_blank,
   fun t hWF hsmall => clean_render_parses t hWF (by
     have h1 : (10 : Nat) ^ 13 ≤ floatCap := by decide
     have h2 : 0 < (10 : Nat) ^ t.frac.length := Nat.pos_pow_of_pos _ (by norm_num)
     calc digsVal (t.digits ++ t.frac) < 10 ^ 13 := hsmall
       _ ≤ floatCap := h1
       _ ≤ floatCap * 10 ^ t.frac.length := Nat.le_mul_of_pos_right _ h2),
   by decide, by decide, by decide⟩

/-- Witness for C2 at the null-like input `" NaN "` and at the raw
currency number rendered as `"($1,2.5)"`. -/
theorem C2_amended_witness :
    clean_numeric_value " NaN " = "" ∧
    (∃ d : DecVal,
      pyFloat? (clean_numeric_value
          (RawNumber.render ⟨true, true, ['1', ',', '2'], ['5']⟩)) = some d ∧
      crossEq d (RawNumber.val ⟨true, true, ['1', ',', '2'], ['5']⟩)) := by
  refine ⟨C2_amended.1 " NaN " (Or.inr (by decide)),
    C2_amended.2.1 ⟨true, true, ['1', ',', '2'], ['5']⟩ (by decide) (by decide)⟩

end Cin7
